import Mathlib

/-!
# Pisket: the per-frame simulation of `game.js`

Shallow embedding of the simulation core of `src/game.js` (the closure installed as
`window.onload`): the player, the platform sequence, the camera, the score, the session flag,
the key table and the three state-changing routines `generatePlatform`, `update`,
`restartGame`, together with the two key listeners.

Modelling conventions.

* JavaScript numbers are doubles.  They are modelled as rationals (`ℚ`), and the arithmetic of
  the simulation (additions, subtractions, multiplications by a literal, comparisons) as
  exact, wherever rounding cannot change the outcome at a state the page can be in.  Where it
  can, in the geometry of a generated platform (lines 59-61), the rounding of every operation
  to the nearest double, ties to even, is modelled too (`roundDouble`,
  `generatePlatformDouble`).  Overflow to `Infinity` and `NaN` are not modelled.
* `canvas.width` and `canvas.height` come from the page, which is not part of `game.js`; they
  are a parameter (`Canvas`).
* `player.width`, `player.height` and `player.speed` are written once in the object literal and
  never assigned afterwards; they are constants of the model.
* `Math.random()` is an input: the three draws of one call of `generatePlatform` are passed in
  as a `Draws` value.
* Reading a property of `undefined` raises a `TypeError`.  Routines that can do so return an
  `Outcome`, which records the values of the globals at the moment the routine stopped.
* Drawing is a read-only consumer of the state and is not modelled.  Of the audio element only
  what the script itself writes is kept (`paused`, `currentTime`).
-/

namespace Pisket

/-- The drawing surface, of which the simulation only reads the two dimensions. -/
structure Canvas where
  width : ℚ
  height : ℚ
deriving DecidableEq

/-- Line 6: `const gravity = 1.0`. -/
def gravity : ℚ := 1

/-- Line 7: `const groundHeight = 50`. -/
def groundHeight : ℚ := 50

/-- Line 8: `const floorY = canvas.height - groundHeight`. -/
def floorY (canvas : Canvas) : ℚ := canvas.height - groundHeight

/-- The two sprite images a player can show. -/
inductive Sprite where
  | idleSprite
  | runSprite
deriving DecidableEq

/-- What the script writes of the `bgMusic` audio element. -/
structure Audio where
  paused : Bool
  currentTime : ℚ
deriving DecidableEq

/-- The mutable fields of the `player` object (lines 26-37). -/
structure Player where
  x : ℚ
  y : ℚ
  dx : ℚ
  dy : ℚ
  jumping : Bool
  facingRight : Bool
  currentSprite : Sprite
deriving DecidableEq

/-- Line 29: `width: 50`, never assigned again. -/
def Player.width (_ : Player) : ℚ := 50

/-- Line 30: `height: 60`, never assigned again. -/
def Player.height (_ : Player) : ℚ := 60

/-- Line 33: `speed: 8`, never assigned again. -/
def Player.speed (_ : Player) : ℚ := 8

/-- A platform object `{ x, y, width, height }`. -/
structure Platform where
  x : ℚ
  y : ℚ
  width : ℚ
  height : ℚ
deriving DecidableEq

/-- The globals of the closure that the simulation reads and writes, the key table apart. -/
structure Game where
  player : Player
  platforms : List Platform
  cameraX : ℚ
  score : ℚ
  gameOver : Bool
  bgMusic : Audio
deriving DecidableEq

/-- The key table `keys`: a property that was never written reads as `undefined`, which is
falsy, so a table is the set of codes whose entry is truthy. -/
abbrev Keys := String → Bool

/-- The empty table of line 47: `const keys = {}`. -/
def noKeys : Keys := fun _ => false

/-- The assignment `keys[code] = v`. -/
def setKey (keys : Keys) (code : String) (v : Bool) : Keys :=
  fun c => if c = code then v else keys c

/-- The three values `Math.random()` returns during one call of `generatePlatform`, in call
order. -/
structure Draws where
  r1 : ℚ
  r2 : ℚ
  r3 : ℚ
deriving DecidableEq

/-- `Math.random()` returns a number in `[0, 1)`. -/
def Draws.valid (r : Draws) : Prop :=
  (0 ≤ r.r1 ∧ r.r1 < 1) ∧ (0 ≤ r.r2 ∧ r.r2 < 1) ∧ (0 ≤ r.r3 ∧ r.r3 < 1)

instance (r : Draws) : Decidable r.valid := by
  unfold Draws.valid
  infer_instance

/-- How a routine ends: normally, or with the `TypeError` of a property read on `undefined`.
Either way the globals have the recorded value afterwards. -/
inductive Outcome where
  | ok (g : Game)
  | typeError (g : Game)
deriving DecidableEq

/-- The globals once the routine has stopped. -/
def Outcome.state : Outcome → Game
  | .ok g => g
  | .typeError g => g

/-- Whether the routine ran to its end. -/
def Outcome.returned : Outcome → Bool
  | .ok _ => true
  | .typeError _ => false

/-- Lines 57-68, `generatePlatform`.  `platforms[platforms.length - 1]` is `undefined` on an
empty array and the read of `.x` on it throws before anything is written.  After the `push`
the array has a first element, so `platforms[0]` is always an object. -/
def generatePlatform (canvas : Canvas) (r : Draws) (g : Game) : Outcome :=
  match g.platforms.getLast? with
  | none => .typeError g
  | some lastPlat =>
    let newX := lastPlat.x + r.r1 * 200 + 150
    let newY := floorY canvas - (r.r2 * 150 + 50)
    let newWidth := r.r3 * 100 + 80
    let pushed := g.platforms ++ [{ x := newX, y := newY, width := newWidth, height := 20 }]
    match pushed with
    | [] => .typeError { g with platforms := pushed }
    | first :: rest =>
      if first.x + first.width < g.cameraX - 200 then
        .ok { g with platforms := rest }
      else
        .ok { g with platforms := pushed }

/-- Lines 74-83, "Movement (WASD)". -/
def movement (keys : Keys) (p : Player) : Player :=
  if keys "KeyD" then
    { p with dx := p.speed, facingRight := true }
  else if keys "KeyA" then
    { p with dx := -p.speed, facingRight := false }
  else
    { p with dx := 0 }

/-- Lines 85-89, "Jump". -/
def jump (keys : Keys) (p : Player) : Player :=
  if keys "KeyW" && !p.jumping then
    { p with dy := -18, jumping := true }
  else
    p

/-- Lines 91-93, "Gravity": `player.dy += gravity; player.y += player.dy`. -/
def applyGravity (p : Player) : Player :=
  let p1 := { p with dy := p.dy + gravity }
  { p1 with y := p1.y + p1.dy }

/-- The test of line 106 for one platform: `overlapX && withinY && player.dy >= 0`, with
`overlapX`, `feetY` and `withinY` as computed on lines 100-104. -/
def qualifies (playerWorldX : ℚ) (p : Player) (plat : Platform) : Bool :=
  let overlapX := decide (playerWorldX + p.width > plat.x) &&
    decide (playerWorldX < plat.x + plat.width)
  let feetY := p.y + p.height
  let withinY := decide (feetY ≥ plat.y) && decide (feetY ≤ plat.y + plat.height)
  overlapX && withinY && decide (p.dy ≥ 0)

/-- Lines 98-112, the loop `for (let plat of platforms)`: the player is written only on the
iteration that breaks out of the loop.  Returns the player and `onGround`. -/
def platformCollision (playerWorldX : ℚ) (p : Player) : List Platform → Player × Bool
  | [] => (p, false)
  | plat :: rest =>
    if qualifies playerWorldX p plat then
      ({ p with y := plat.y - p.height, dy := 0 }, true)
    else
      platformCollision playerWorldX p rest

/-- Lines 74-93: the player as it enters collision resolution. -/
def beforeCollision (keys : Keys) (p : Player) : Player :=
  applyGravity (jump keys (movement keys p))

/-- Lines 95-115: collision against the platform sequence, then the airborne flag and the
sprite. -/
def resolve (g : Game) (p : Player) : Player :=
  let playerWorldX := g.cameraX + p.x
  let res := platformCollision playerWorldX p g.platforms
  let p1 := { res.1 with jumping := !res.2 }
  { p1 with currentSprite := if p1.dx ≠ 0 then Sprite.runSprite else Sprite.idleSprite }

/-- Lines 121-125, "Move player": the step and the two clamps, in source order. -/
def movePlayer (canvas : Canvas) (p : Player) : Player :=
  let p1 := { p with x := p.x + p.dx }
  let p2 := if p1.x < 0 then { p1 with x := 0 } else p1
  if p2.x + p2.width > canvas.width then { p2 with x := canvas.width - p2.width } else p2

/-- Lines 74-125: everything `update` does before it looks at the platform sequence for
generation.  Nothing here can throw. -/
def simulate (canvas : Canvas) (keys : Keys) (g : Game) : Game :=
  let p := resolve g (beforeCollision keys g.player)
  { g with
    player := movePlayer canvas p
    cameraX := g.cameraX + 2
    score := g.score + 1 }

/-- Lines 133-137, "Fall detection". -/
def fallDetection (canvas : Canvas) (g : Game) : Game :=
  if g.player.y > canvas.height then
    { g with gameOver := true, bgMusic := { g.bgMusic with paused := true } }
  else
    g

/-- Lines 71-138, `update`.  The read `farthestPlatform.x` of line 129 throws on an empty
platform array, after the writes of lines 74-125 and before the fall detection. -/
def update (canvas : Canvas) (keys : Keys) (r : Draws) (g : Game) : Outcome :=
  if g.gameOver then .ok g
  else
    let g1 := simulate canvas keys g
    match g1.platforms.getLast? with
    | none => .typeError g1
    | some farthestPlatform =>
      if farthestPlatform.x < g1.cameraX + 1000 then
        match generatePlatform canvas r g1 with
        | .typeError g2 => .typeError g2
        | .ok g2 => .ok (fallDetection canvas g2)
      else
        .ok (fallDetection canvas g1)

/-- Lines 216-225, `restartGame`. -/
def restartGame (canvas : Canvas) (g : Game) : Game :=
  { g with
    player := { g.player with x := 100, y := floorY canvas - 60, dy := 0 }
    cameraX := 0
    score := 0
    gameOver := false
    bgMusic := { paused := false, currentTime := 0 } }

/-- Everything the closure owns: the key table and the other globals. -/
structure World where
  keys : Keys
  game : Game

/-- Lines 48-53, the `keydown` listener for an event with `e.code = code`. -/
def keydown (canvas : Canvas) (code : String) (w : World) : World :=
  let keys := setKey w.keys code true
  if w.game.gameOver && code = "Space" then
    { keys := keys, game := restartGame canvas w.game }
  else
    { keys := keys, game := w.game }

/-- Line 54, the `keyup` listener. -/
def keyup (code : String) (w : World) : World :=
  { w with keys := setKey w.keys code false }

/-- One pass of `gameLoop` (lines 228-232) as far as the state goes: `update`, then the
read-only `draw`. -/
def tick (canvas : Canvas) (r : Draws) (w : World) : World :=
  { w with game := (update canvas w.keys r w.game).state }

/-- Lines 9-44 and 235: the globals when the loop starts, after `bgMusic.play()`. -/
def initialGame (canvas : Canvas) : Game :=
  { player :=
      { x := 100, y := floorY canvas - 60, dx := 0, dy := 0, jumping := false,
        facingRight := true, currentSprite := Sprite.idleSprite }
    platforms :=
      [ { x := 0, y := floorY canvas, width := 800, height := groundHeight },
        { x := 400, y := floorY canvas - 100, width := 120, height := 20 },
        { x := 700, y := floorY canvas - 150, width := 100, height := 20 } ]
    cameraX := 0
    score := 0
    gameOver := false
    bgMusic := { paused := false, currentTime := 0 } }

/-- The state when the loop starts. -/
def initialWorld (canvas : Canvas) : World :=
  { keys := noKeys, game := initialGame canvas }

/-- The states the page can be in: the start state, closed under frames (with draws in
`[0, 1)`), key events and `restartGame`. -/
inductive Reachable (canvas : Canvas) : World → Prop where
  | init : Reachable canvas (initialWorld canvas)
  | tick (r : Draws) (w : World) : r.valid → Reachable canvas w →
      Reachable canvas (tick canvas r w)
  | keydown (code : String) (w : World) : Reachable canvas w →
      Reachable canvas (keydown canvas code w)
  | keyup (code : String) (w : World) : Reachable canvas w →
      Reachable canvas (keyup code w)
  | restart (w : World) : Reachable canvas w →
      Reachable canvas { w with game := restartGame canvas w.game }

/-- The platform `generatePlatform` builds from the last platform and the three draws. -/
def newPlatform (canvas : Canvas) (r : Draws) (lastPlat : Platform) : Platform :=
  { x := lastPlat.x + r.r1 * 200 + 150
    y := floorY canvas - (r.r2 * 150 + 50)
    width := r.r3 * 100 + 80
    height := 20 }

/-- A canvas of 800 by 400, the width of the initial ground platform. -/
def wideCanvas : Canvas := { width := 800, height := 400 }

/-- A canvas narrower than the player. -/
def narrowCanvas : Canvas := { width := 40, height := 400 }

/-- Draws that are all zero. -/
def zeroDraws : Draws := { r1 := 0, r2 := 0, r3 := 0 }

/-- The qualifying condition of collision resolution as the specification words it: the
player's world extent `[cameraX + x, cameraX + x + 50]` strictly overlaps
`[plat.x, plat.x + plat.width]`, the feet `y + 60` lie in `[plat.y, plat.y + plat.height]`,
and `dy >= 0`. -/
def Snaps (cameraX : ℚ) (p : Player) (plat : Platform) : Prop :=
  (cameraX + p.x < plat.x + plat.width ∧ plat.x < cameraX + p.x + 50) ∧
  (plat.y ≤ p.y + 60 ∧ p.y + 60 ≤ plat.y + plat.height) ∧
  0 ≤ p.dy

instance (cameraX : ℚ) (p : Player) (plat : Platform) : Decidable (Snaps cameraX p plat) := by
  unfold Snaps
  infer_instance

/-- The scenario of the specification on the 800 by 400 canvas (`floorY = 350`): the player
falls with `dy = 5` from `y = floorY - 200` onto a single platform at `floorY - 150` that
covers its world extent. -/
def fallingGame : Game :=
  { player :=
      { x := 100, y := 150, dx := 0, dy := 5, jumping := true, facingRight := true,
        currentSprite := Sprite.idleSprite }
    platforms := [{ x := 100, y := 200, width := 50, height := 20 }]
    cameraX := 0
    score := 0
    gameOver := false
    bgMusic := { paused := false, currentTime := 0 } }

/-- Consecutive frames, each with its own key table and draws: the globals after the last
one. -/
def runFrames (canvas : Canvas) : List (Keys × Draws) → Game → Game
  | [], g => g
  | (keys, r) :: frames, g => runFrames canvas frames (update canvas keys r g).state

/-- A state after a fall: the scenario's player below the canvas, session over. -/
def fallenGame : Game :=
  { fallingGame with
    player := { fallingGame.player with y := 401 }
    cameraX := 14
    score := 7
    gameOver := true
    bgMusic := { paused := true, currentTime := 0 } }

/-- A running state whose player is about to pass the lower edge of the 800 by 400 canvas. -/
def sinkingGame : Game :=
  { fallingGame with player := { fallingGame.player with y := 400 } }

/-- Draws in the middle of the range. -/
def halfDraws : Draws := { r1 := 1 / 2, r2 := 1 / 2, r3 := 1 / 2 }

/-- The start state on the 800 by 400 canvas after one frame with no key held. -/
def secondWorld : World := tick wideCanvas halfDraws (initialWorld wideCanvas)

/-- The initial ground platform of line 41. -/
def groundPlatform (canvas : Canvas) : Platform :=
  { x := 0, y := floorY canvas, width := 800, height := groundHeight }

/-- The states reached from the start state by calls of `update` that are entered with
`gameOver = false`, with any key table and any draws in `[0, 1)`. -/
inductive RunningReachable (canvas : Canvas) : Game → Prop where
  | init : RunningReachable canvas (initialGame canvas)
  | step (keys : Keys) (r : Draws) (g : Game) : RunningReachable canvas g →
      g.gameOver = false → r.valid →
      RunningReachable canvas (update canvas keys r g).state

/-- Consecutive frames as in `runFrames`, checked: `none` as soon as a frame would be entered
with `gameOver = true` or with a draw outside `[0, 1)`. -/
def runRunning (canvas : Canvas) : List (Keys × Draws) → Game → Option Game
  | [], g => some g
  | (keys, r) :: frames, g =>
    if g.gameOver = false ∧ r.valid then
      runRunning canvas frames (update canvas keys r g).state
    else
      none

/-- Draws that lay a walkway: every new platform starts 150 after the last one, at
`floorY - 50`, and is 170 wide. -/
def walkDraws : Draws := { r1 := 0, r2 := 0, r3 := 9 / 10 }

/-- The key table with only `KeyW` held. -/
def jumpKeys : Keys := setKey noKeys "KeyW" true

/-- A play of 526 frames: 339 frames with no key held, one frame with `KeyW`, 186 frames
with no key held, all with `walkDraws`. -/
def survivalScript : List (Keys × Draws) :=
  List.replicate 339 (noKeys, walkDraws) ++ (jumpKeys, walkDraws) ::
    List.replicate 186 (noKeys, walkDraws)

/-- The globals after `survivalScript` on the 800 by 400 canvas. -/
def survivorGame : Game := runFrames wideCanvas survivalScript (initialGame wideCanvas)

/-- A platform sequence is strictly ascending in world x: every platform lies strictly to the
left of every later one (for the transitive `<` this is the same as comparing neighbours). -/
def Ascending (platforms : List Platform) : Prop :=
  platforms.Pairwise (fun a b => a.x < b.x)

instance (platforms : List Platform) : Decidable (Ascending platforms) := by
  unfold Ascending
  infer_instance

/-- The key table with `KeyD` and `KeyA` both held. -/
def bothKeys : Keys := setKey (setKey noKeys "KeyA" true) "KeyD" true

/-- The start state with the session over, as after a fall. -/
def overWorld : World :=
  { keys := noKeys, game := { initialGame wideCanvas with gameOver := true } }

/-- The page after a key-down of `KeyD` at the start and 84 frames with all draws `1/2`, on the
800 by 400 canvas. -/
def brinkWorld : World :=
  (tick wideCanvas halfDraws)^[84] (keydown wideCanvas "KeyD" (initialWorld wideCanvas))

/-- Rounding of a rational to the nearest integer, halves to the even neighbour. -/
def roundHalfEven (m : ℚ) : ℤ :=
  if m - ⌊m⌋ < 1 / 2 then ⌊m⌋
  else if 1 / 2 < m - ⌊m⌋ then ⌊m⌋ + 1
  else if ⌊m⌋ % 2 = 0 then ⌊m⌋
  else ⌊m⌋ + 1

/-- The binary exponent of a positive magnitude `a` in the double format: the `e` with
`2 ^ e <= a < 2 ^ (e + 1)`, and `-1022` for the subnormal range below `2 ^ (-1022)`. -/
def doubleExponent (a : ℚ) : ℤ := max (Int.log 2 a) (-1022)

/-- The double nearest to a magnitude `a >= 0`: `a` is rounded to a multiple of the unit in the
last place `2 ^ (e - 52)` of its binade (a significand of 53 bits). -/
def roundMagnitude (a : ℚ) : ℚ :=
  roundHalfEven (a / 2 ^ (doubleExponent a - 52)) * 2 ^ (doubleExponent a - 52)

/-- IEEE-754 binary64 rounding of a real result, to nearest, ties to even: what a JavaScript
`+`, `-` or `*` returns for the exact result `q` (magnitudes below `2 ^ 1024`). -/
def roundDouble (q : ℚ) : ℚ :=
  if q < 0 then -roundMagnitude (-q) else roundMagnitude q

/-- Line 8 in double arithmetic. -/
def floorYDouble (canvas : Canvas) : ℚ := roundDouble (canvas.height - groundHeight)

/-- Lines 59-61 and the object of line 63 in double arithmetic: each `*`, `+` and `-` rounds,
in the order in which JavaScript evaluates them. -/
def newPlatformDouble (canvas : Canvas) (r : Draws) (lastPlat : Platform) : Platform :=
  { x := roundDouble (roundDouble (lastPlat.x + roundDouble (r.r1 * 200)) + 150)
    y := roundDouble (floorYDouble canvas - roundDouble (roundDouble (r.r2 * 150) + 50))
    width := roundDouble (roundDouble (r.r3 * 100) + 80)
    height := 20 }

/-- Lines 57-68, `generatePlatform`, in double arithmetic. -/
def generatePlatformDouble (canvas : Canvas) (r : Draws) (g : Game) : Outcome :=
  match g.platforms.getLast? with
  | none => .typeError g
  | some lastPlat =>
    let pushed := g.platforms ++ [newPlatformDouble canvas r lastPlat]
    match pushed with
    | [] => .typeError { g with platforms := pushed }
    | first :: rest =>
      if roundDouble (first.x + first.width) < roundDouble (g.cameraX - 200) then
        .ok { g with platforms := rest }
      else
        .ok { g with platforms := pushed }

/-- Draws of which the first and the third are the largest double below 1,
`1 - 2 ^ (-53)`. -/
def nearOneDraws : Draws := { r1 := 1 - 1 / 2 ^ 53, r2 := 0, r3 := 1 - 1 / 2 ^ 53 }

/-! ## General facts about the routines -/

@[simp] theorem simulate_platforms (canvas : Canvas) (keys : Keys) (g : Game) :
    (simulate canvas keys g).platforms = g.platforms := rfl

@[simp] theorem simulate_cameraX (canvas : Canvas) (keys : Keys) (g : Game) :
    (simulate canvas keys g).cameraX = g.cameraX + 2 := rfl

@[simp] theorem simulate_score (canvas : Canvas) (keys : Keys) (g : Game) :
    (simulate canvas keys g).score = g.score + 1 := rfl

@[simp] theorem simulate_gameOver (canvas : Canvas) (keys : Keys) (g : Game) :
    (simulate canvas keys g).gameOver = g.gameOver := rfl

@[simp] theorem simulate_player (canvas : Canvas) (keys : Keys) (g : Game) :
    (simulate canvas keys g).player =
      movePlayer canvas (resolve g (beforeCollision keys g.player)) := rfl

@[simp] theorem movePlayer_y (canvas : Canvas) (p : Player) : (movePlayer canvas p).y = p.y := by
  unfold movePlayer
  dsimp only
  split_ifs <;> rfl

@[simp] theorem movePlayer_dy (canvas : Canvas) (p : Player) :
    (movePlayer canvas p).dy = p.dy := by
  unfold movePlayer
  dsimp only
  split_ifs <;> rfl

@[simp] theorem movePlayer_jumping (canvas : Canvas) (p : Player) :
    (movePlayer canvas p).jumping = p.jumping := by
  unfold movePlayer
  dsimp only
  split_ifs <;> rfl

/-- The right clamp is the last write to `player.x`. -/
theorem movePlayer_x_le (canvas : Canvas) (p : Player) :
    (movePlayer canvas p).x ≤ canvas.width - 50 := by
  unfold movePlayer
  dsimp only
  split_ifs <;> simp only [Player.width] at * <;> linarith

/-- The left clamp survives the right clamp when the canvas is at least as wide as the
player. -/
theorem movePlayer_x_nonneg (canvas : Canvas) (p : Player) (hw : 50 ≤ canvas.width) :
    0 ≤ (movePlayer canvas p).x := by
  unfold movePlayer
  dsimp only
  split_ifs <;> simp only [Player.width] at * <;> linarith

@[simp] theorem fallDetection_player (canvas : Canvas) (g : Game) :
    (fallDetection canvas g).player = g.player := by
  unfold fallDetection
  split_ifs <;> rfl

@[simp] theorem fallDetection_platforms (canvas : Canvas) (g : Game) :
    (fallDetection canvas g).platforms = g.platforms := by
  unfold fallDetection
  split_ifs <;> rfl

@[simp] theorem fallDetection_cameraX (canvas : Canvas) (g : Game) :
    (fallDetection canvas g).cameraX = g.cameraX := by
  unfold fallDetection
  split_ifs <;> rfl

@[simp] theorem fallDetection_score (canvas : Canvas) (g : Game) :
    (fallDetection canvas g).score = g.score := by
  unfold fallDetection
  split_ifs <;> rfl

/-- On a non-empty sequence `generatePlatform` returns; it pushes the new platform and then
shifts the first platform out exactly when that one lies more than 200 behind the camera. -/
theorem generatePlatform_cons (canvas : Canvas) (r : Draws) (g : Game) (first : Platform)
    (rest : List Platform) (h : g.platforms = first :: rest) :
    generatePlatform canvas r g =
      .ok { g with platforms :=
        if first.x + first.width < g.cameraX - 200 then
          rest ++ [newPlatform canvas r ((first :: rest).getLast (List.cons_ne_nil _ _))]
        else
          first :: (rest ++ [newPlatform canvas r
            ((first :: rest).getLast (List.cons_ne_nil _ _))]) } := by
  unfold generatePlatform
  rw [h, List.getLast?_eq_getLast _ (List.cons_ne_nil _ _)]
  simp only [List.cons_append, newPlatform]
  split_ifs <;> rfl

/-- `generatePlatform` only writes `platforms`. -/
theorem generatePlatform_frame (canvas : Canvas) (r : Draws) (g : Game) :
    (generatePlatform canvas r g).state.player = g.player ∧
    (generatePlatform canvas r g).state.cameraX = g.cameraX ∧
    (generatePlatform canvas r g).state.score = g.score ∧
    (generatePlatform canvas r g).state.gameOver = g.gameOver ∧
    (generatePlatform canvas r g).state.bgMusic = g.bgMusic := by
  cases hp : g.platforms with
  | nil =>
    unfold generatePlatform
    simp [hp, Outcome.state]
  | cons first rest =>
    rw [generatePlatform_cons canvas r g first rest hp]
    simp [Outcome.state]

/-- What `update` does in a running session. -/
theorem update_running (canvas : Canvas) (keys : Keys) (r : Draws) (g : Game)
    (hg : g.gameOver = false) :
    update canvas keys r g =
      match g.platforms.getLast? with
      | none => .typeError (simulate canvas keys g)
      | some farthestPlatform =>
        if farthestPlatform.x < g.cameraX + 2 + 1000 then
          match generatePlatform canvas r (simulate canvas keys g) with
          | .typeError g2 => .typeError g2
          | .ok g2 => .ok (fallDetection canvas g2)
        else
          .ok (fallDetection canvas (simulate canvas keys g)) := by
  unfold update
  simp only [hg, Bool.false_eq_true, if_false, simulate_platforms, simulate_cameraX]

/-- In a running session the player after `update` is the simulated player, whether or not the
call ran to its end. -/
theorem update_running_player (canvas : Canvas) (keys : Keys) (r : Draws) (g : Game)
    (hg : g.gameOver = false) :
    (update canvas keys r g).state.player =
      movePlayer canvas (resolve g (beforeCollision keys g.player)) := by
  rw [update_running canvas keys r g hg]
  cases hl : g.platforms.getLast? with
  | none => rfl
  | some far =>
    dsimp only
    split_ifs
    · have hf := (generatePlatform_frame canvas r (simulate canvas keys g)).1
      cases hgp : generatePlatform canvas r (simulate canvas keys g) with
      | ok g2 =>
        rw [hgp] at hf
        simpa [Outcome.state] using hf
      | typeError g2 =>
        rw [hgp] at hf
        simpa [Outcome.state] using hf
    · simp [Outcome.state]

/-! ## C1: the clamp of `player.x` -/

/-- C1 (as amended): in a running session, after one call of `update` the player's local x is
at most `canvas.width - player.width`, and it is at least 0 when the canvas is at least as
wide as the player (`canvas.width >= 50`). -/
theorem C1_clamp_invariant (canvas : Canvas) (keys : Keys) (r : Draws) (g : Game)
    (hg : g.gameOver = false) (hw : 50 ≤ canvas.width) :
    0 ≤ (update canvas keys r g).state.player.x ∧
    (update canvas keys r g).state.player.x ≤
      canvas.width - (update canvas keys r g).state.player.width := by
  rw [update_running_player canvas keys r g hg]
  exact ⟨movePlayer_x_nonneg canvas _ hw, movePlayer_x_le canvas _⟩

/-- C1, witness of the amended statement: the first frame on an 800 by 400 canvas with no key
held. -/
theorem C1_clamp_invariant_witness :
    0 ≤ (update wideCanvas noKeys zeroDraws (initialGame wideCanvas)).state.player.x ∧
    (update wideCanvas noKeys zeroDraws (initialGame wideCanvas)).state.player.x ≤
      wideCanvas.width -
        (update wideCanvas noKeys zeroDraws (initialGame wideCanvas)).state.player.width :=
  C1_clamp_invariant wideCanvas noKeys zeroDraws (initialGame wideCanvas) rfl
    (by norm_num [wideCanvas])

/-- C1, counterexample to the statement without a lower bound on the canvas width: on a canvas
40 wide the first frame, with no key held, leaves `player.x = -10`. -/
theorem C1_counterexample :
    (initialGame narrowCanvas).gameOver = false ∧
    (update narrowCanvas noKeys zeroDraws (initialGame narrowCanvas)).state.player.x = -10 ∧
    ¬ (0 ≤ (update narrowCanvas noKeys zeroDraws (initialGame narrowCanvas)).state.player.x ∧
      (update narrowCanvas noKeys zeroDraws (initialGame narrowCanvas)).state.player.x ≤
        narrowCanvas.width -
          (update narrowCanvas noKeys zeroDraws (initialGame narrowCanvas)).state.player.width) := by
  have hx : (update narrowCanvas noKeys zeroDraws (initialGame narrowCanvas)).state.player.x
      = -10 := by
    rw [update_running_player _ _ _ _ rfl]
    norm_num [movePlayer, resolve, beforeCollision, applyGravity, jump, movement, noKeys,
      initialGame, narrowCanvas, platformCollision, qualifies, Player.width, Player.height,
      Player.speed, gravity, floorY, groundHeight]
  refine ⟨rfl, hx, ?_⟩
  rw [hx]
  norm_num

/-- With a non-empty platform sequence `update` runs to its end. -/
theorem update_returns (canvas : Canvas) (keys : Keys) (r : Draws) (g : Game)
    (hne : g.platforms ≠ []) :
    update canvas keys r g = .ok (update canvas keys r g).state := by
  cases hg : g.gameOver with
  | true =>
    unfold update
    simp [hg, Outcome.state]
  | false =>
    rw [update_running canvas keys r g hg]
    obtain ⟨first, rest, hp⟩ := List.exists_cons_of_ne_nil hne
    rw [List.getLast?_eq_getLast _ hne]
    dsimp only
    split_ifs
    · rw [generatePlatform_cons canvas r (simulate canvas keys g) first rest
        (by simpa using hp)]
      rfl
    · rfl

/-! ## C2: the snap onto the first qualifying platform -/

/-- The specification's wording of the qualifying condition is the test of line 106. -/
theorem qualifies_iff_snaps (cameraX : ℚ) (p : Player) (plat : Platform) :
    qualifies (cameraX + p.x) p plat = true ↔ Snaps cameraX p plat := by
  unfold qualifies Snaps
  simp only [Player.width, Player.height, Bool.and_eq_true, decide_eq_true_eq, gt_iff_lt,
    ge_iff_le]
  tauto

/-- The loop stops at the first platform that passes the test. -/
theorem platformCollision_first (wx : ℚ) (p : Player) (pre post : List Platform)
    (plat : Platform) (hpre : ∀ q ∈ pre, qualifies wx p q = false)
    (hq : qualifies wx p plat = true) :
    platformCollision wx p (pre ++ plat :: post) =
      ({ p with y := plat.y - p.height, dy := 0 }, true) := by
  induction pre with
  | nil => simp [platformCollision, hq]
  | cons q qs ih =>
    have hq0 : qualifies wx p q = false := hpre q (List.mem_cons_self _ _)
    have hqs : ∀ q1 ∈ qs, qualifies wx p q1 = false :=
      fun q1 h1 => hpre q1 (List.mem_cons_of_mem _ h1)
    simp only [List.cons_append, platformCollision, hq0, Bool.false_eq_true, if_false]
    exact ih hqs

/-- C2: in a running session, if the platform sequence splits as `pre ++ plat :: post` where,
for the player as it leaves the jump, gravity and integration steps, no platform of `pre`
qualifies and `plat` does (whatever `post` holds), then `update` returns and afterwards
`player.y + player.height = plat.y`, `player.dy = 0` and `player.jumping = false`. -/
theorem C2_grounded_snap_first (canvas : Canvas) (keys : Keys) (r : Draws) (g : Game)
    (pre post : List Platform) (plat : Platform)
    (hg : g.gameOver = false)
    (hsplit : g.platforms = pre ++ plat :: post)
    (hpre : ∀ q ∈ pre, ¬ Snaps g.cameraX (beforeCollision keys g.player) q)
    (hq : Snaps g.cameraX (beforeCollision keys g.player) plat) :
    ∃ g1 : Game, update canvas keys r g = .ok g1 ∧
      g1.player.y + g1.player.height = plat.y ∧ g1.player.dy = 0 ∧
      g1.player.jumping = false := by
  have hne : g.platforms ≠ [] := by
    rw [hsplit]
    simp
  refine ⟨(update canvas keys r g).state, update_returns canvas keys r g hne, ?_⟩
  rw [update_running_player canvas keys r g hg]
  have hc := platformCollision_first (g.cameraX + (beforeCollision keys g.player).x)
    (beforeCollision keys g.player) pre post plat
    (fun q hqm => by
      have := hpre q hqm
      rw [← qualifies_iff_snaps] at this
      simpa using this)
    ((qualifies_iff_snaps _ _ _).2 hq)
  simp only [movePlayer_y, movePlayer_dy, movePlayer_jumping, resolve, ← hsplit] at hc ⊢
  rw [hc]
  simp [Player.height]

/-- C2, witness: the scenario of the specification on the 800 by 400 canvas.  The player ends
at `y = floorY - 150 - 60` with `dy = 0`, grounded. -/
theorem C2_grounded_snap_first_witness :
    Snaps fallingGame.cameraX (beforeCollision noKeys fallingGame.player)
      { x := 100, y := floorY wideCanvas - 150, width := 50, height := 20 } ∧
    ∃ g1 : Game, update wideCanvas noKeys zeroDraws fallingGame = .ok g1 ∧
      g1.player.y = floorY wideCanvas - 150 - 60 ∧ g1.player.dy = 0 ∧
      g1.player.jumping = false := by
  have hplat : ({ x := 100, y := floorY wideCanvas - 150, width := 50, height := 20 } :
      Platform) = { x := 100, y := 200, width := 50, height := 20 } := by
    norm_num [floorY, wideCanvas, groundHeight]
  have hq : Snaps fallingGame.cameraX (beforeCollision noKeys fallingGame.player)
      { x := 100, y := floorY wideCanvas - 150, width := 50, height := 20 } := by
    rw [hplat]
    norm_num [Snaps, fallingGame, beforeCollision, applyGravity, jump, movement, noKeys,
      gravity]
  obtain ⟨g1, hu, hy, hdy, hj⟩ := C2_grounded_snap_first wideCanvas noKeys zeroDraws
    fallingGame [] [] { x := 100, y := floorY wideCanvas - 150, width := 50, height := 20 }
    rfl (by rw [hplat]; rfl) (by simp) hq
  refine ⟨hq, g1, hu, ?_, hdy, hj⟩
  simp only [Player.height] at hy
  linarith

/-! ## C3: no jump while airborne -/

/-- The movement step reads `KeyD` and `KeyA` only. -/
theorem movement_setKey_KeyW (keys : Keys) (v : Bool) (p : Player) :
    movement (setKey keys "KeyW" v) p = movement keys p := by
  unfold movement setKey
  simp

/-- The movement step does not write the airborne flag. -/
theorem movement_jumping (keys : Keys) (p : Player) :
    (movement keys p).jumping = p.jumping := by
  unfold movement
  split_ifs <;> rfl

/-- The jump step does nothing to an airborne player. -/
theorem jump_airborne (keys : Keys) (p : Player) (hj : p.jumping = true) :
    jump keys p = p := by
  unfold jump
  simp [hj]

/-- The movement step writes neither `dy` nor `y`. -/
theorem movement_dy_y (keys : Keys) (p : Player) :
    (movement keys p).dy = p.dy ∧ (movement keys p).y = p.y := by
  unfold movement
  split_ifs <;> exact ⟨rfl, rfl⟩

/-- C3: in a running session with `player.jumping = true` the jump step leaves `dy` unchanged
for every key table, the `dy` and `y` that enter collision resolution are `old dy + 1` and
`old y + old dy + 1`, and `update` gives the same result with `KeyW` held as with `KeyW`
released. -/
theorem C3_jump_rejected_airborne (canvas : Canvas) (keys : Keys) (r : Draws) (g : Game)
    (_hg : g.gameOver = false) (hj : g.player.jumping = true) :
    (jump keys (movement keys g.player)).dy = g.player.dy ∧
    (beforeCollision keys g.player).dy = g.player.dy + 1 ∧
    (beforeCollision keys g.player).y = g.player.y + g.player.dy + 1 ∧
    update canvas (setKey keys "KeyW" true) r g =
      update canvas (setKey keys "KeyW" false) r g := by
  have hmj : (movement keys g.player).jumping = true := by
    rw [movement_jumping, hj]
  have hjump : ∀ k : Keys, jump k (movement keys g.player) = movement keys g.player :=
    fun k => jump_airborne k _ hmj
  have hbc : ∀ v : Bool, beforeCollision (setKey keys "KeyW" v) g.player =
      applyGravity (movement keys g.player) := by
    intro v
    unfold beforeCollision
    rw [movement_setKey_KeyW, hjump]
  have hsim : simulate canvas (setKey keys "KeyW" true) g =
      simulate canvas (setKey keys "KeyW" false) g := by
    unfold simulate
    rw [hbc true, hbc false]
  refine ⟨?_, ?_, ?_, ?_⟩
  · rw [hjump, (movement_dy_y keys g.player).1]
  · unfold beforeCollision
    rw [hjump]
    simp [applyGravity, gravity, (movement_dy_y keys g.player).1]
  · unfold beforeCollision
    rw [hjump]
    simp only [applyGravity, gravity, (movement_dy_y keys g.player).1,
      (movement_dy_y keys g.player).2]
    ring
  · unfold update
    rw [hsim]

/-- C3, witness: the falling player of the scenario is airborne; holding `KeyW` changes
nothing. -/
theorem C3_jump_rejected_airborne_witness :
    (fallingGame.gameOver = false ∧ fallingGame.player.jumping = true) ∧
    (jump noKeys (movement noKeys fallingGame.player)).dy = fallingGame.player.dy ∧
    (beforeCollision noKeys fallingGame.player).dy = fallingGame.player.dy + 1 ∧
    (beforeCollision noKeys fallingGame.player).y =
      fallingGame.player.y + fallingGame.player.dy + 1 ∧
    update wideCanvas (setKey noKeys "KeyW" true) zeroDraws fallingGame =
      update wideCanvas (setKey noKeys "KeyW" false) zeroDraws fallingGame :=
  ⟨⟨rfl, rfl⟩, C3_jump_rejected_airborne wideCanvas noKeys zeroDraws fallingGame rfl rfl⟩

/-! ## C4: restart -/

/-- C4: `restartGame` yields `player.x = 100`, `player.y = floorY - 60` with
`floorY = canvas.height - 50`, `player.dy = 0`, `cameraX = 0`, `score = 0` and
`gameOver = false`, from every state and so from every state with `gameOver = true`. -/
theorem C4_restart_postcondition (canvas : Canvas) (g : Game) :
    (restartGame canvas g).player.x = 100 ∧
    (restartGame canvas g).player.y = floorY canvas - 60 ∧
    floorY canvas = canvas.height - 50 ∧
    (restartGame canvas g).player.dy = 0 ∧
    (restartGame canvas g).cameraX = 0 ∧
    (restartGame canvas g).score = 0 ∧
    (restartGame canvas g).gameOver = false :=
  ⟨rfl, rfl, rfl, rfl, rfl, rfl, rfl⟩

/-! ## The fall detection -/

/-- When `update` runs to its end in a running session, `gameOver` afterwards tells whether the
player is below the canvas. -/
theorem update_running_gameOver (canvas : Canvas) (keys : Keys) (r : Draws) (g : Game)
    (hg : g.gameOver = false) (hne : g.platforms ≠ []) :
    (update canvas keys r g).state.gameOver = true ↔
      (update canvas keys r g).state.player.y > canvas.height := by
  rw [update_running canvas keys r g hg]
  obtain ⟨first, rest, hp⟩ := List.exists_cons_of_ne_nil hne
  rw [List.getLast?_eq_getLast _ hne]
  dsimp only
  have hfd : ∀ g2 : Game, g2.gameOver = false →
      ((fallDetection canvas g2).gameOver = true ↔
        (fallDetection canvas g2).player.y > canvas.height) := by
    intro g2 h2
    unfold fallDetection
    split_ifs with hy
    · simpa using hy
    · simpa [h2] using hy
  split_ifs
  · rw [generatePlatform_cons canvas r (simulate canvas keys g) first rest
      (by simpa using hp)]
    exact hfd _ (by simpa using hg)
  · exact hfd _ (by simpa using hg)

/-- In a running session with a non-empty platform sequence `update` returns, the player's `y`
afterwards is the `y` that leaves collision resolution, and `gameOver` is true afterwards
exactly when that `y` is greater than `canvas.height`. -/
theorem update_fall_out (canvas : Canvas) (keys : Keys) (r : Draws) (g : Game)
    (hg : g.gameOver = false) (hne : g.platforms ≠ []) :
    ∃ g1 : Game, update canvas keys r g = .ok g1 ∧
      g1.player.y = (resolve g (beforeCollision keys g.player)).y ∧
      (g1.gameOver = true ↔ g1.player.y > canvas.height) := by
  refine ⟨(update canvas keys r g).state, update_returns canvas keys r g hne, ?_,
    update_running_gameOver canvas keys r g hg hne⟩
  rw [update_running_player canvas keys r g hg, movePlayer_y]

/-- The platform sequence after `update` in a running session with a non-empty sequence:
generation is decided on the last platform and the advanced camera, eviction on the first
platform and the advanced camera. -/
theorem update_running_platforms (canvas : Canvas) (keys : Keys) (r : Draws) (g : Game)
    (first : Platform) (rest : List Platform) (hg : g.gameOver = false)
    (hp : g.platforms = first :: rest) :
    (update canvas keys r g).state.platforms =
      if ((first :: rest).getLast (List.cons_ne_nil _ _)).x < g.cameraX + 2 + 1000 then
        if first.x + first.width < g.cameraX + 2 - 200 then
          rest ++ [newPlatform canvas r ((first :: rest).getLast (List.cons_ne_nil _ _))]
        else
          first :: (rest ++ [newPlatform canvas r
            ((first :: rest).getLast (List.cons_ne_nil _ _))])
      else
        first :: rest := by
  rw [update_running canvas keys r g hg, hp, List.getLast?_eq_getLast _ (List.cons_ne_nil _ _)]
  dsimp only
  split_ifs with h1 h2
  · rw [generatePlatform_cons canvas r (simulate canvas keys g) first rest (by simpa using hp)]
    simp [Outcome.state, h2]
  · rw [generatePlatform_cons canvas r (simulate canvas keys g) first rest (by simpa using hp)]
    simp [Outcome.state, h2]
  · simp [Outcome.state, hp]

/-- A session that is over is left alone by `update`. -/
theorem update_gameOver (canvas : Canvas) (keys : Keys) (r : Draws) (g : Game)
    (hg : g.gameOver = true) : update canvas keys r g = .ok g := by
  unfold update
  simp [hg]

/-- A failed `update` leaves the platform sequence as it was. -/
theorem update_nil_platforms (canvas : Canvas) (keys : Keys) (r : Draws) (g : Game)
    (hp : g.platforms = []) : (update canvas keys r g).state.platforms = [] := by
  cases hg : g.gameOver with
  | true => rw [update_gameOver canvas keys r g hg]; exact hp
  | false =>
    rw [update_running canvas keys r g hg, hp]
    simp [Outcome.state, hp]

/-- `update` never empties a non-empty platform sequence. -/
theorem update_platforms_ne_nil (canvas : Canvas) (keys : Keys) (r : Draws) (g : Game)
    (hne : g.platforms ≠ []) : (update canvas keys r g).state.platforms ≠ [] := by
  cases hg : g.gameOver with
  | true => rw [update_gameOver canvas keys r g hg]; exact hne
  | false =>
    obtain ⟨first, rest, hp⟩ := List.exists_cons_of_ne_nil hne
    rw [update_running_platforms canvas keys r g first rest hg hp]
    split_ifs <;> simp

/-- Non-emptiness of the platform sequence is an invariant of the page. -/
theorem reachable_platforms_ne_nil (canvas : Canvas) (w : World) (hw : Reachable canvas w) :
    w.game.platforms ≠ [] := by
  induction hw with
  | init => simp [initialWorld, initialGame]
  | tick r w _ _ ih => exact update_platforms_ne_nil canvas w.keys r w.game ih
  | keydown code w _ ih =>
    unfold keydown
    dsimp only
    split_ifs
    · exact ih
    · exact ih
  | keyup code w _ ih => exact ih
  | restart w _ ih => exact ih

/-- Frames with the same draws keep a reachable state reachable. -/
theorem reachable_iterate_tick (canvas : Canvas) (r : Draws) (hr : r.valid) (n : ℕ) :
    ∀ w : World, Reachable canvas w → Reachable canvas ((tick canvas r)^[n] w) := by
  induction n with
  | zero => exact fun w hw => hw
  | succ n ih =>
    intro w hw
    rw [Function.iterate_succ_apply]
    exact ih _ (Reachable.tick r w hr hw)

/-! ## C5: the fall-out transition -/

/-- C5: in every running state the page can be in (reachable from the start state by frames,
key events and restarts), for every key table and draws, `update` returns and afterwards
`gameOver` is true if and only if the player's `y` at the end of the tick, which is the `y`
that leaves collision resolution (after gravity, integration and any snap), is strictly
greater than `canvas.height`; otherwise the session stays running. -/
theorem C5_fall_out_transition (canvas : Canvas) (w : World) (keys : Keys) (r : Draws)
    (hw : Reachable canvas w) (hg : w.game.gameOver = false) :
    ∃ g1 : Game, update canvas keys r w.game = .ok g1 ∧
      g1.player.y = (resolve w.game (beforeCollision keys w.game.player)).y ∧
      (g1.gameOver = true ↔ g1.player.y > canvas.height) ∧
      (¬ g1.player.y > canvas.height → g1.gameOver = false) := by
  obtain ⟨g1, hu, hy, hiff⟩ :=
    update_fall_out canvas keys r w.game hg (reachable_platforms_ne_nil canvas w hw)
  refine ⟨g1, hu, hy, hiff, fun hnot => ?_⟩
  cases hgo : g1.gameOver with
  | false => rfl
  | true => exact absurd (hiff.1 hgo) hnot

/-- The state of `brinkWorld`: the session is running, and the next frame takes the player from
`y = 395` to `y = 410`, below the 400 high canvas, and ends the session. -/
theorem brinkWorld_frame :
    brinkWorld.game.gameOver = false ∧ brinkWorld.game.player.y = 395 ∧
    (update wideCanvas brinkWorld.keys halfDraws brinkWorld.game).state.player.y = 410 ∧
    (update wideCanvas brinkWorld.keys halfDraws brinkWorld.game).state.gameOver = true := by
  decide!

/-- C5, witness: a fall-out.  With `KeyD` held from the start the player runs off the right
end of the ground; after 84 frames it is at `y = 395`, still running, and frame 85 ends the
session at `y = 410 > 400`. -/
theorem C5_fall_out_transition_witness :
    (Reachable wideCanvas brinkWorld ∧ brinkWorld.game.gameOver = false) ∧
    (∃ g1 : Game, update wideCanvas brinkWorld.keys halfDraws brinkWorld.game = .ok g1 ∧
      g1.player.y =
        (resolve brinkWorld.game (beforeCollision brinkWorld.keys brinkWorld.game.player)).y ∧
      (g1.gameOver = true ↔ g1.player.y > wideCanvas.height) ∧
      (¬ g1.player.y > wideCanvas.height → g1.gameOver = false)) ∧
    (update wideCanvas brinkWorld.keys halfDraws brinkWorld.game).state.player.y = 410 ∧
    (update wideCanvas brinkWorld.keys halfDraws brinkWorld.game).state.gameOver = true :=
  have hv : halfDraws.valid := by
    norm_num [Draws.valid, halfDraws]
  have hw : Reachable wideCanvas brinkWorld :=
    reachable_iterate_tick wideCanvas halfDraws hv 84 _
      (Reachable.keydown "KeyD" _ Reachable.init)
  ⟨⟨hw, brinkWorld_frame.1⟩,
    C5_fall_out_transition wideCanvas brinkWorld brinkWorld.keys halfDraws hw brinkWorld_frame.1,
    brinkWorld_frame.2.2⟩

/-! ## C6: frozen while the session is over -/

/-- C6: with `gameOver = true`, `update` returns the globals unchanged for every key table
(player, platform sequence, `cameraX`, `score`, `gameOver` and the rest), so any number of
consecutive frames, each with its own key table, leaves them unchanged, `score` and `cameraX`
in particular. -/
theorem C6_frozen_while_game_over (canvas : Canvas) (g : Game) (hg : g.gameOver = true) :
    (∀ (keys : Keys) (r : Draws), update canvas keys r g = .ok g) ∧
    (∀ frames : List (Keys × Draws),
      runFrames canvas frames g = g ∧
      (runFrames canvas frames g).score = g.score ∧
      (runFrames canvas frames g).cameraX = g.cameraX) := by
  have hrun : ∀ frames : List (Keys × Draws), runFrames canvas frames g = g := by
    intro frames
    induction frames with
    | nil => rfl
    | cons f fs ih =>
      obtain ⟨keys, r⟩ := f
      simp only [runFrames, update_gameOver canvas keys r g hg, Outcome.state]
      exact ih
  refine ⟨fun keys r => update_gameOver canvas keys r g hg, fun frames => ?_⟩
  rw [hrun frames]
  exact ⟨rfl, rfl, rfl⟩

/-- C6, witness: three frames after a fall, the second with `KeyD` held. -/
theorem C6_frozen_while_game_over_witness :
    fallenGame.gameOver = true ∧
    (∀ (keys : Keys) (r : Draws), update wideCanvas keys r fallenGame = .ok fallenGame) ∧
    (∀ frames : List (Keys × Draws),
      runFrames wideCanvas frames fallenGame = fallenGame ∧
      (runFrames wideCanvas frames fallenGame).score = fallenGame.score ∧
      (runFrames wideCanvas frames fallenGame).cameraX = fallenGame.cameraX) :=
  ⟨rfl, C6_frozen_while_game_over wideCanvas fallenGame rfl⟩

/-! ## C7: score and camera -/

/-- C7: for every state, key table and draws, `update` decreases neither `score` nor
`cameraX`; entered with `gameOver = false` it adds exactly 2 to `cameraX` and exactly 1 to
`score`, whatever the keys, the platforms and the fate of the player in that frame. -/
theorem C7_score_camera_monotone (canvas : Canvas) (keys : Keys) (r : Draws) (g : Game) :
    g.score ≤ (update canvas keys r g).state.score ∧
    g.cameraX ≤ (update canvas keys r g).state.cameraX ∧
    (g.gameOver = false →
      (update canvas keys r g).state.cameraX = g.cameraX + 2 ∧
      (update canvas keys r g).state.score = g.score + 1) := by
  have hrun : g.gameOver = false →
      (update canvas keys r g).state.cameraX = g.cameraX + 2 ∧
      (update canvas keys r g).state.score = g.score + 1 := by
    intro hg
    rw [update_running canvas keys r g hg]
    cases hl : g.platforms.getLast? with
    | none => exact ⟨rfl, rfl⟩
    | some far =>
      dsimp only
      have hf := generatePlatform_frame canvas r (simulate canvas keys g)
      split_ifs
      · cases hgp : generatePlatform canvas r (simulate canvas keys g) with
        | ok g2 =>
          rw [hgp] at hf
          simp only [Outcome.state] at hf ⊢
          simp [hf.2.1, hf.2.2.1]
        | typeError g2 =>
          rw [hgp] at hf
          simp only [Outcome.state] at hf ⊢
          simp [hf.2.1, hf.2.2.1]
      · simp [Outcome.state]
  cases hg : g.gameOver with
  | true =>
    rw [update_gameOver canvas keys r g hg]
    exact ⟨le_refl _, le_refl _, fun h => by simp at h⟩
  | false =>
    obtain ⟨hc, hs⟩ := hrun hg
    refine ⟨?_, ?_, fun _ => ⟨hc, hs⟩⟩
    · rw [hs]; linarith
    · rw [hc]; linarith

/-- C7, witness: the frame in which the player of `sinkingGame` falls out advances the camera
by 2 and the score by 1. -/
theorem C7_score_camera_monotone_witness :
    sinkingGame.gameOver = false ∧
    (update wideCanvas noKeys zeroDraws sinkingGame).state.gameOver = true ∧
    (update wideCanvas noKeys zeroDraws sinkingGame).state.cameraX = sinkingGame.cameraX + 2 ∧
    (update wideCanvas noKeys zeroDraws sinkingGame).state.score = sinkingGame.score + 1 := by
  refine ⟨rfl, ?_, (C7_score_camera_monotone wideCanvas noKeys zeroDraws sinkingGame).2.2 rfl⟩
  rw [update_running_gameOver wideCanvas noKeys zeroDraws sinkingGame rfl
    (by simp [sinkingGame, fallingGame]), update_running_player _ _ _ _ rfl, movePlayer_y]
  norm_num [resolve, beforeCollision, applyGravity, jump, movement, noKeys, sinkingGame,
    fallingGame, platformCollision, qualifies, Player.width, Player.height, gravity, wideCanvas]

/-! ## C8: geometry of a generated platform -/

/-- The ranges of the new platform for draws in `[0, 1)` when no operation rounds: the upper
ends are excluded. -/
theorem newPlatform_ranges (canvas : Canvas) (r : Draws) (lastPlat : Platform)
    (hr : r.valid) :
    (lastPlat.x + 150 ≤ (newPlatform canvas r lastPlat).x ∧
      (newPlatform canvas r lastPlat).x < lastPlat.x + 350) ∧
    (floorY canvas - 200 < (newPlatform canvas r lastPlat).y ∧
      (newPlatform canvas r lastPlat).y ≤ floorY canvas - 50) ∧
    (80 ≤ (newPlatform canvas r lastPlat).width ∧
      (newPlatform canvas r lastPlat).width < 180) ∧
    (newPlatform canvas r lastPlat).height = 20 := by
  obtain ⟨⟨h1, h1'⟩, ⟨h2, h2'⟩, ⟨h3, h3'⟩⟩ := hr
  refine ⟨⟨?_, ?_⟩, ⟨?_, ?_⟩, ⟨?_, ?_⟩, rfl⟩ <;> simp only [newPlatform] <;> linarith

/-! ### Rounding to doubles -/

theorem roundHalfEven_intCast (z : ℤ) : roundHalfEven (z : ℚ) = z := by
  unfold roundHalfEven
  simp

/-- Rounding gives the floor or the integer above it. -/
theorem roundHalfEven_floor_or (m : ℚ) :
    roundHalfEven m = ⌊m⌋ ∨ roundHalfEven m = ⌊m⌋ + 1 := by
  unfold roundHalfEven
  split_ifs <;> simp

/-- Rounding half to even is monotone. -/
theorem roundHalfEven_mono {m n : ℚ} (h : m ≤ n) : roundHalfEven m ≤ roundHalfEven n := by
  have hfl : ⌊m⌋ ≤ ⌊n⌋ := Int.floor_mono h
  rcases lt_or_eq_of_le hfl with hlt | heq
  · have h1 : roundHalfEven m ≤ ⌊m⌋ + 1 := by
      rcases roundHalfEven_floor_or m with h | h <;> omega
    have h2 : ⌊n⌋ ≤ roundHalfEven n := by
      rcases roundHalfEven_floor_or n with h | h <;> omega
    omega
  · unfold roundHalfEven
    rw [← heq]
    have hd : m - ⌊m⌋ ≤ n - ⌊m⌋ := by linarith
    split_ifs <;> first | omega | (exfalso; linarith)

/-- The unit in the last place is positive. -/
theorem ulp_pos (e : ℤ) : (0 : ℚ) < 2 ^ (e - 52) := zpow_pos (by norm_num) _

/-- A power of two times the unit in the last place. -/
theorem two_pow_mul_ulp (e : ℤ) (k : ℕ) :
    (((2 : ℤ) ^ k : ℤ) : ℚ) * 2 ^ (e - 52) = 2 ^ (e - 52 + (k : ℤ)) := by
  rw [Int.cast_pow, Int.cast_ofNat, zpow_add₀ (by norm_num : (2 : ℚ) ≠ 0), zpow_natCast,
    mul_comm]

/-- The upper end of the binade of exponent `e` is `2 ^ 53` units. -/
theorem two_pow_53_mul_ulp (e : ℤ) :
    (((2 : ℤ) ^ 53 : ℤ) : ℚ) * 2 ^ (e - 52) = 2 ^ (e + 1) := by
  rw [two_pow_mul_ulp]
  congr 1
  omega

/-- The lower end of the binade of exponent `e` is `2 ^ 52` units. -/
theorem two_pow_52_mul_ulp (e : ℤ) :
    (((2 : ℤ) ^ 52 : ℤ) : ℚ) * 2 ^ (e - 52) = 2 ^ e := by
  rw [two_pow_mul_ulp]
  congr 1
  omega

/-- A magnitude lies below the upper end of its binade. -/
theorem lt_zpow_doubleExponent (a : ℚ) : a < 2 ^ (doubleExponent a + 1) := by
  have h1 : a < ((2 : ℕ) : ℚ) ^ (Int.log 2 a + 1) := Int.lt_zpow_succ_log_self (by norm_num) a
  have h2 : ((2 : ℕ) : ℚ) ^ (Int.log 2 a + 1) ≤ 2 ^ (doubleExponent a + 1) := by
    simp only [Nat.cast_ofNat]
    apply zpow_le_zpow_right₀ (by norm_num)
    unfold doubleExponent
    have := le_max_left (Int.log 2 a) (-1022)
    omega
  exact lt_of_lt_of_le h1 h2

/-- A normal magnitude lies at or above the lower end of its binade. -/
theorem zpow_doubleExponent_le (a : ℚ) (ha : 0 < a) (he : -1022 < doubleExponent a) :
    2 ^ doubleExponent a ≤ a := by
  have hlog : doubleExponent a = Int.log 2 a := by
    unfold doubleExponent at he ⊢
    rcases max_cases (Int.log 2 a) (-1022) with ⟨h, -⟩ | ⟨h, -⟩
    · exact h
    · rw [h] at he; omega
  rw [hlog]
  have := Int.zpow_log_le_self (b := 2) (r := a) (by norm_num) ha
  simpa using this

/-- The exponent grows with the magnitude. -/
theorem doubleExponent_mono {a b : ℚ} (ha : 0 < a) (h : a ≤ b) :
    doubleExponent a ≤ doubleExponent b := by
  unfold doubleExponent
  exact max_le_max (Int.log_mono_right ha h) le_rfl

/-- Zero rounds to zero. -/
theorem roundMagnitude_zero : roundMagnitude 0 = 0 := by
  unfold roundMagnitude
  simp [roundHalfEven]

/-- A magnitude rounds to a magnitude. -/
theorem roundMagnitude_nonneg {a : ℚ} (ha : 0 ≤ a) : 0 ≤ roundMagnitude a := by
  unfold roundMagnitude
  apply mul_nonneg _ (le_of_lt (ulp_pos _))
  have h0 : roundHalfEven ((0 : ℤ) : ℚ) ≤ roundHalfEven (a / 2 ^ (doubleExponent a - 52)) :=
    roundHalfEven_mono (by
      simp only [Int.cast_zero]
      exact div_nonneg ha (le_of_lt (ulp_pos _)))
  rw [roundHalfEven_intCast] at h0
  exact_mod_cast h0

/-- Rounding does not pass the upper end of the binade. -/
theorem roundMagnitude_le_zpow (a : ℚ) :
    roundMagnitude a ≤ 2 ^ (doubleExponent a + 1) := by
  unfold roundMagnitude
  have hu := ulp_pos (doubleExponent a)
  have hlt : a / 2 ^ (doubleExponent a - 52) ≤ (((2 : ℤ) ^ 53 : ℤ) : ℚ) := by
    rw [div_le_iff₀ hu]
    have h := lt_zpow_doubleExponent a
    have he : (((2 : ℤ) ^ 53 : ℤ) : ℚ) * 2 ^ (doubleExponent a - 52) =
        2 ^ (doubleExponent a + 1) := two_pow_53_mul_ulp _
    rw [he]
    exact le_of_lt h
  have h1 := roundHalfEven_mono hlt
  rw [roundHalfEven_intCast] at h1
  have h2 : ((roundHalfEven (a / 2 ^ (doubleExponent a - 52)) : ℤ) : ℚ) ≤
      (((2 : ℤ) ^ 53 : ℤ) : ℚ) := by exact_mod_cast h1
  calc (roundHalfEven (a / 2 ^ (doubleExponent a - 52)) : ℚ) * 2 ^ (doubleExponent a - 52)
      ≤ (((2 : ℤ) ^ 53 : ℤ) : ℚ) * 2 ^ (doubleExponent a - 52) :=
        mul_le_mul_of_nonneg_right h2 (le_of_lt hu)
    _ = 2 ^ (doubleExponent a + 1) := two_pow_53_mul_ulp _

/-- Rounding does not pass the lower end of a normal binade. -/
theorem zpow_le_roundMagnitude (a : ℚ) (ha : 0 < a) (he : -1022 < doubleExponent a) :
    2 ^ doubleExponent a ≤ roundMagnitude a := by
  unfold roundMagnitude
  have hu := ulp_pos (doubleExponent a)
  have he2 : (((2 : ℤ) ^ 52 : ℤ) : ℚ) * 2 ^ (doubleExponent a - 52) =
      2 ^ doubleExponent a := two_pow_52_mul_ulp _
  have hge : (((2 : ℤ) ^ 52 : ℤ) : ℚ) ≤ a / 2 ^ (doubleExponent a - 52) := by
    rw [le_div_iff₀ hu, he2]
    exact zpow_doubleExponent_le a ha he
  have h1 := roundHalfEven_mono hge
  rw [roundHalfEven_intCast] at h1
  have h2 : (((2 : ℤ) ^ 52 : ℤ) : ℚ) ≤
      ((roundHalfEven (a / 2 ^ (doubleExponent a - 52)) : ℤ) : ℚ) := by exact_mod_cast h1
  calc (2 : ℚ) ^ doubleExponent a
      = (((2 : ℤ) ^ 52 : ℤ) : ℚ) * 2 ^ (doubleExponent a - 52) := he2.symm
    _ ≤ _ := mul_le_mul_of_nonneg_right h2 (le_of_lt hu)

/-- Rounding of magnitudes is monotone, within a binade and across binades. -/
theorem roundMagnitude_mono {a b : ℚ} (ha : 0 ≤ a) (h : a ≤ b) :
    roundMagnitude a ≤ roundMagnitude b := by
  rcases eq_or_lt_of_le ha with h0 | hpos
  · rw [← h0, roundMagnitude_zero]
    exact roundMagnitude_nonneg (le_trans ha h)
  · have hexp := doubleExponent_mono hpos h
    rcases eq_or_lt_of_le hexp with heq | hlt
    · unfold roundMagnitude
      rw [heq]
      have hu := ulp_pos (doubleExponent b)
      have hm := roundHalfEven_mono (div_le_div_of_nonneg_right h (le_of_lt hu))
      have hm2 : ((roundHalfEven (a / 2 ^ (doubleExponent b - 52)) : ℤ) : ℚ) ≤
          ((roundHalfEven (b / 2 ^ (doubleExponent b - 52)) : ℤ) : ℚ) := by exact_mod_cast hm
      exact mul_le_mul_of_nonneg_right hm2 (le_of_lt hu)
    · have hb : -1022 < doubleExponent b := by
        have : -1022 ≤ doubleExponent a := le_max_right _ _
        omega
      calc roundMagnitude a ≤ 2 ^ (doubleExponent a + 1) := roundMagnitude_le_zpow a
        _ ≤ 2 ^ doubleExponent b := zpow_le_zpow_right₀ (by norm_num) (by omega)
        _ ≤ roundMagnitude b := zpow_le_roundMagnitude b (lt_of_lt_of_le hpos h) hb

/-- Rounding to the nearest double is monotone. -/
theorem roundDouble_mono {p q : ℚ} (h : p ≤ q) : roundDouble p ≤ roundDouble q := by
  unfold roundDouble
  split_ifs with hp hq hq
  · exact neg_le_neg (roundMagnitude_mono (by linarith) (by linarith))
  · have h1 := roundMagnitude_nonneg (a := -p) (by linarith)
    have h2 := roundMagnitude_nonneg (a := q) (by linarith)
    linarith
  · exfalso; linarith
  · exact roundMagnitude_mono (by linarith) h

/-- The exponent of a magnitude in the binade `[2 ^ e, 2 ^ (e + 1))`. -/
theorem doubleExponent_eq (a : ℚ) (e : ℤ) (h1 : 2 ^ e ≤ a) (h2 : a < 2 ^ (e + 1))
    (he : -1022 ≤ e) : doubleExponent a = e := by
  have ha : 0 < a := lt_of_lt_of_le (zpow_pos (by norm_num) _) h1
  have hl1 : e ≤ Int.log 2 a :=
    (Int.zpow_le_iff_le_log (b := 2) (by norm_num) ha).1 (by simpa using h1)
  have hl2 : Int.log 2 a < e + 1 :=
    (Int.lt_zpow_iff_log_lt (b := 2) (by norm_num) ha).1 (by simpa using h2)
  unfold doubleExponent
  rw [max_eq_left (by omega)]
  omega

/-- The double nearest to a positive `a` of known binade. -/
theorem roundDouble_eval (a : ℚ) (e z : ℤ) (h1 : 2 ^ e ≤ a) (h2 : a < 2 ^ (e + 1))
    (he : -1022 ≤ e) (hz : roundHalfEven (a / 2 ^ (e - 52)) = z) :
    roundDouble a = z * 2 ^ (e - 52) := by
  have ha : 0 < a := lt_of_lt_of_le (zpow_pos (by norm_num) _) h1
  unfold roundDouble
  rw [if_neg (not_lt.2 (le_of_lt ha))]
  unfold roundMagnitude
  rw [doubleExponent_eq a e h1 h2 he, hz]

/-- A multiple of the unit in the last place of its binade is a double. -/
theorem roundDouble_exact (a : ℚ) (e z : ℤ) (h1 : 2 ^ e ≤ a) (h2 : a < 2 ^ (e + 1))
    (he : -1022 ≤ e) (hz : a = z * 2 ^ (e - 52)) : roundDouble a = a := by
  rw [roundDouble_eval a e z h1 h2 he, ← hz]
  rw [hz, mul_div_assoc, div_self (ne_of_gt (ulp_pos e)), mul_one, roundHalfEven_intCast]

/-- Zero is a double. -/
theorem roundDouble_zero : roundDouble 0 = 0 := by
  unfold roundDouble
  simp [roundMagnitude_zero]

/-- Below the half, rounding goes down. -/
theorem roundHalfEven_down (m : ℚ) (f : ℤ) (h1 : (f : ℚ) ≤ m) (h2 : m - f < 1 / 2) :
    roundHalfEven m = f := by
  have hf : ⌊m⌋ = f := Int.floor_eq_iff.2 ⟨h1, by linarith⟩
  unfold roundHalfEven
  rw [hf, if_pos h2]

/-- Above the half, rounding goes up. -/
theorem roundHalfEven_up (m : ℚ) (f : ℤ) (h1 : 1 / 2 < m - f) (h2 : m < f + 1) :
    roundHalfEven m = f + 1 := by
  have hf : ⌊m⌋ = f := Int.floor_eq_iff.2 ⟨by linarith, h2⟩
  unfold roundHalfEven
  rw [hf, if_neg (by linarith), if_pos h1]

/-- At the half above an odd integer, rounding goes up to the even one. -/
theorem roundHalfEven_tie_odd (m : ℚ) (f : ℤ) (h : m = f + 1 / 2) (hodd : f % 2 = 1) :
    roundHalfEven m = f + 1 := by
  have hf : ⌊m⌋ = f := Int.floor_eq_iff.2 ⟨by linarith, by linarith⟩
  unfold roundHalfEven
  rw [hf, if_neg (by linarith), if_neg (by linarith), if_neg (by omega)]

/-- The constants of lines 59-61 and their sums are doubles. -/
theorem roundDouble_constants :
    roundDouble 0 = 0 ∧ roundDouble 50 = 50 ∧ roundDouble 80 = 80 ∧ roundDouble 100 = 100 ∧
    roundDouble 150 = 150 ∧ roundDouble 180 = 180 ∧ roundDouble 200 = 200 :=
  ⟨roundDouble_zero,
    roundDouble_exact 50 5 (50 * 2 ^ 47) (by norm_num) (by norm_num) (by norm_num)
      (by norm_num),
    roundDouble_exact 80 6 (80 * 2 ^ 46) (by norm_num) (by norm_num) (by norm_num)
      (by norm_num),
    roundDouble_exact 100 6 (100 * 2 ^ 46) (by norm_num) (by norm_num) (by norm_num)
      (by norm_num),
    roundDouble_exact 150 7 (150 * 2 ^ 45) (by norm_num) (by norm_num) (by norm_num)
      (by norm_num),
    roundDouble_exact 180 7 (180 * 2 ^ 45) (by norm_num) (by norm_num) (by norm_num)
      (by norm_num),
    roundDouble_exact 200 7 (200 * 2 ^ 45) (by norm_num) (by norm_num) (by norm_num)
      (by norm_num)⟩

/-- A product `r * c` of a draw in `[0, 1)` with a constant `c` that is a double rounds into
`[0, c]`. -/
theorem roundDouble_draw_mul (r c : ℚ) (hr : 0 ≤ r ∧ r < 1) (hc : 0 ≤ c)
    (hcd : roundDouble c = c) :
    0 ≤ roundDouble (r * c) ∧ roundDouble (r * c) ≤ c := by
  constructor
  · have h := roundDouble_mono (mul_nonneg hr.1 hc)
    rwa [roundDouble_constants.1] at h
  · have h : r * c ≤ c := by nlinarith [hr.1, hr.2]
    have h2 := roundDouble_mono h
    rwa [hcd] at h2

/-- On a non-empty sequence `generatePlatformDouble` returns; it pushes the new platform and
then shifts the first platform out when that one lies more than 200 behind the camera. -/
theorem generatePlatformDouble_cons (canvas : Canvas) (r : Draws) (g : Game)
    (first : Platform) (rest : List Platform) (h : g.platforms = first :: rest) :
    generatePlatformDouble canvas r g =
      .ok { g with platforms :=
        if roundDouble (first.x + first.width) < roundDouble (g.cameraX - 200) then
          rest ++ [newPlatformDouble canvas r
            ((first :: rest).getLast (List.cons_ne_nil _ _))]
        else
          first :: (rest ++ [newPlatformDouble canvas r
            ((first :: rest).getLast (List.cons_ne_nil _ _))]) } := by
  unfold generatePlatformDouble
  rw [h, List.getLast?_eq_getLast _ (List.cons_ne_nil _ _)]
  simp only [List.cons_append]
  split_ifs <;> rfl

/-- The ranges of the new platform in double arithmetic, for draws in `[0, 1)` and a last
platform whose `x` is a double. -/
theorem newPlatformDouble_ranges (canvas : Canvas) (r : Draws) (L : Platform)
    (hr : r.valid) (hx : roundDouble L.x = L.x) :
    (roundDouble (L.x + 150) ≤ (newPlatformDouble canvas r L).x ∧
      (newPlatformDouble canvas r L).x ≤ roundDouble (roundDouble (L.x + 200) + 150)) ∧
    (roundDouble (floorYDouble canvas - 200) ≤ (newPlatformDouble canvas r L).y ∧
      (newPlatformDouble canvas r L).y ≤ roundDouble (floorYDouble canvas - 50)) ∧
    (80 ≤ (newPlatformDouble canvas r L).width ∧
      (newPlatformDouble canvas r L).width ≤ 180) ∧
    (newPlatformDouble canvas r L).height = 20 := by
  obtain ⟨h0, h50, h80, h100, h150, h180, h200⟩ := roundDouble_constants
  obtain ⟨hr1, hr2, hr3⟩ := hr
  obtain ⟨hx0, hx1⟩ := roundDouble_draw_mul r.r1 200 hr1 (by norm_num) h200
  obtain ⟨hy0, hy1⟩ := roundDouble_draw_mul r.r2 150 hr2 (by norm_num) h150
  obtain ⟨hw0, hw1⟩ := roundDouble_draw_mul r.r3 100 hr3 (by norm_num) h100
  have hs0 : 50 ≤ roundDouble (roundDouble (r.r2 * 150) + 50) := by
    have h := roundDouble_mono (show (50 : ℚ) ≤ roundDouble (r.r2 * 150) + 50 by linarith)
    rwa [h50] at h
  have hs1 : roundDouble (roundDouble (r.r2 * 150) + 50) ≤ 200 := by
    have h := roundDouble_mono (show roundDouble (r.r2 * 150) + 50 ≤ (200 : ℚ) by linarith)
    rwa [h200] at h
  have hl : L.x ≤ roundDouble (L.x + roundDouble (r.r1 * 200)) := by
    have h := roundDouble_mono (show L.x ≤ L.x + roundDouble (r.r1 * 200) by linarith)
    rwa [hx] at h
  have hu : roundDouble (L.x + roundDouble (r.r1 * 200)) ≤ roundDouble (L.x + 200) :=
    roundDouble_mono (by linarith)
  refine ⟨⟨?_, ?_⟩, ⟨?_, ?_⟩, ⟨?_, ?_⟩, rfl⟩
  · exact roundDouble_mono (by linarith)
  · exact roundDouble_mono (by linarith)
  · exact roundDouble_mono (by linarith)
  · exact roundDouble_mono (by linarith)
  · have h := roundDouble_mono (show (80 : ℚ) ≤ roundDouble (r.r3 * 100) + 80 by linarith)
    rwa [h80] at h
  · have h := roundDouble_mono (show roundDouble (r.r3 * 100) + 80 ≤ (180 : ℚ) by linarith)
    rwa [h180] at h

/-- C8 (as amended): in the double arithmetic of the code, on a non-empty platform sequence
whose last element `L` has a double as `x`, with draws `r1, r2, r3` in `[0, 1)`,
`generatePlatform` returns, the new sequence is the old one with one platform appended (less
the first platform if that one was evicted), and the appended platform, the last of the new
sequence, has `L.x + 150 <= x <= (L.x + 200) + 150`, `floorY - 200 <= y <= floorY - 50`,
`80 <= width <= 180` and `height = 20`, the sums and differences of these bounds being
rounded to doubles like those of the code. -/
theorem C8_new_platform_ranges_double (canvas : Canvas) (r : Draws) (g : Game) (L : Platform)
    (hL : g.platforms.getLast? = some L) (hr : r.valid) (hx : roundDouble L.x = L.x) :
    ∃ (g1 : Game) (plat : Platform),
      generatePlatformDouble canvas r g = .ok g1 ∧
      (g1.platforms = g.platforms ++ [plat] ∨ g1.platforms = (g.platforms ++ [plat]).tail) ∧
      g1.platforms.getLast? = some plat ∧
      (roundDouble (L.x + 150) ≤ plat.x ∧
        plat.x ≤ roundDouble (roundDouble (L.x + 200) + 150)) ∧
      (roundDouble (floorYDouble canvas - 200) ≤ plat.y ∧
        plat.y ≤ roundDouble (floorYDouble canvas - 50)) ∧
      (80 ≤ plat.width ∧ plat.width ≤ 180) ∧
      plat.height = 20 := by
  have hne : g.platforms ≠ [] := by
    intro h
    rw [h] at hL
    simp at hL
  obtain ⟨first, rest, hp⟩ := List.exists_cons_of_ne_nil hne
  have hlast : (first :: rest).getLast (List.cons_ne_nil _ _) = L := by
    rw [hp, List.getLast?_eq_getLast _ (List.cons_ne_nil _ _)] at hL
    exact Option.some.inj hL
  rw [generatePlatformDouble_cons canvas r g first rest hp, hlast, hp]
  refine ⟨_, newPlatformDouble canvas r L, rfl, ?_, ?_,
    newPlatformDouble_ranges canvas r L hr hx⟩
  · dsimp only
    split_ifs
    · right; simp
    · left; simp
  · dsimp only
    split_ifs
    · simp [List.getLast?_append]
    · rw [← List.cons_append, List.getLast?_append]
      simp

/-- The doubles of the first generation from the start state: 700, and the two ends
`700 + 150 = 850` and `(700 + 200) + 150 = 1050` of the range of the new `x`. -/
theorem roundDouble_start_ends :
    roundDouble 700 = 700 ∧ roundDouble (700 + 150) = 850 ∧
    roundDouble (roundDouble (700 + 200) + 150) = 1050 := by
  have h700 : roundDouble 700 = 700 :=
    roundDouble_exact 700 9 (700 * 2 ^ 43) (by norm_num) (by norm_num) (by norm_num)
      (by norm_num)
  have h850 : roundDouble (700 + 150) = 850 := by
    rw [show (700 : ℚ) + 150 = 850 by norm_num]
    exact roundDouble_exact 850 9 (850 * 2 ^ 43) (by norm_num) (by norm_num) (by norm_num)
      (by norm_num)
  have h900 : roundDouble (700 + 200) = 900 := by
    rw [show (700 : ℚ) + 200 = 900 by norm_num]
    exact roundDouble_exact 900 9 (900 * 2 ^ 43) (by norm_num) (by norm_num) (by norm_num)
      (by norm_num)
  have h1050 : roundDouble (900 + 150) = 1050 := by
    rw [show (900 : ℚ) + 150 = 1050 by norm_num]
    exact roundDouble_exact 1050 10 (1050 * 2 ^ 42) (by norm_num) (by norm_num)
      (by norm_num) (by norm_num)
  exact ⟨h700, h850, by rw [h900, h1050]⟩

/-- C8, witness of the amended statement: the first generation from the start state, with all
three draws `1/2`; the new `x` lies in `[850, 1050]`. -/
theorem C8_new_platform_ranges_double_witness :
    ((initialGame wideCanvas).platforms.getLast? =
        some { x := 700, y := floorY wideCanvas - 150, width := 100, height := 20 } ∧
      halfDraws.valid ∧ roundDouble 700 = 700) ∧
    ∃ (g1 : Game) (plat : Platform),
      generatePlatformDouble wideCanvas halfDraws (initialGame wideCanvas) = .ok g1 ∧
      (g1.platforms = (initialGame wideCanvas).platforms ++ [plat] ∨
        g1.platforms = ((initialGame wideCanvas).platforms ++ [plat]).tail) ∧
      g1.platforms.getLast? = some plat ∧
      (850 ≤ plat.x ∧ plat.x ≤ 1050) ∧
      (roundDouble (floorYDouble wideCanvas - 200) ≤ plat.y ∧
        plat.y ≤ roundDouble (floorYDouble wideCanvas - 50)) ∧
      (80 ≤ plat.width ∧ plat.width ≤ 180) ∧
      plat.height = 20 := by
  have hv : halfDraws.valid := by
    norm_num [Draws.valid, halfDraws]
  obtain ⟨h700, h850, h1050⟩ := roundDouble_start_ends
  have h := C8_new_platform_ranges_double wideCanvas halfDraws (initialGame wideCanvas)
    { x := 700, y := floorY wideCanvas - 150, width := 100, height := 20 } rfl hv h700
  simp only [h850, h1050] at h
  exact ⟨⟨rfl, hv, h700⟩, h⟩

/-- The new `x` and `width` for the draws `1 - 2 ^ (-53)` after a last platform at `x = 700`:
`200 * r1` rounds to `200 - 2 ^ (-45)`, the sum with 700 rounds up to 900 and `x` is 1050;
`100 * r3` rounds to `100 - 2 ^ (-46)` and the sum with 80, a tie, rounds to the even 180. -/
theorem newPlatformDouble_nearOne (canvas : Canvas) (L : Platform) (hL : L.x = 700) :
    (newPlatformDouble canvas nearOneDraws L).x = 1050 ∧
    (newPlatformDouble canvas nearOneDraws L).width = 180 := by
  have hx1 : roundDouble ((1 - 1 / 2 ^ 53) * 200) = 200 - 1 / 2 ^ 45 := by
    rw [roundDouble_eval _ 7 (200 * 2 ^ 45 - 1) (by norm_num) (by norm_num) (by norm_num)
      (roundHalfEven_down _ _ (by norm_num) (by norm_num))]
    norm_num
  have hx2 : roundDouble (700 + (200 - 1 / 2 ^ 45)) = 900 := by
    rw [roundDouble_eval _ 9 (900 * 2 ^ 43) (by norm_num) (by norm_num) (by norm_num)
      (by
        have := roundHalfEven_up ((700 + (200 - 1 / 2 ^ 45)) / 2 ^ ((9 : ℤ) - 52))
          (900 * 2 ^ 43 - 1) (by norm_num) (by norm_num)
        rw [this]
        norm_num)]
    norm_num
  have hx3 : roundDouble (900 + 150) = 1050 := by
    rw [show (900 : ℚ) + 150 = 1050 by norm_num]
    exact roundDouble_exact 1050 10 (1050 * 2 ^ 42) (by norm_num) (by norm_num)
      (by norm_num) (by norm_num)
  have hw1 : roundDouble ((1 - 1 / 2 ^ 53) * 100) = 100 - 1 / 2 ^ 46 := by
    rw [roundDouble_eval _ 6 (100 * 2 ^ 46 - 1) (by norm_num) (by norm_num) (by norm_num)
      (roundHalfEven_down _ _ (by norm_num) (by norm_num))]
    norm_num
  have hw2 : roundDouble (100 - 1 / 2 ^ 46 + 80) = 180 := by
    rw [roundDouble_eval _ 7 (180 * 2 ^ 45) (by norm_num) (by norm_num) (by norm_num)
      (by
        have := roundHalfEven_tie_odd ((100 - 1 / 2 ^ 46 + 80) / 2 ^ ((7 : ℤ) - 52))
          (180 * 2 ^ 45 - 1) (by norm_num) (by norm_num)
        rw [this]
        norm_num)]
    norm_num
  simp only [newPlatformDouble, nearOneDraws, hL, hx1, hx2, hx3, hw1, hw2]
  exact ⟨trivial, trivial⟩

/-- C8, counterexample to the strict upper bounds: from the start state on the 800 by 400
canvas (last platform at `x = 700`), with the draws `r1 = r3 = 1 - 2 ^ (-53)`, the largest
double below 1, and `r2 = 0`, the appended platform has `x = 1050 = L.x + 350` and
`width = 180`. -/
theorem C8_counterexample :
    nearOneDraws.valid ∧
    (initialGame wideCanvas).platforms.getLast? =
      some { x := 700, y := floorY wideCanvas - 150, width := 100, height := 20 } ∧
    ∃ (g1 : Game) (plat : Platform),
      generatePlatformDouble wideCanvas nearOneDraws (initialGame wideCanvas) = .ok g1 ∧
      g1.platforms = (initialGame wideCanvas).platforms ++ [plat] ∧
      plat.x = 1050 ∧ plat.width = 180 ∧
      ¬ (plat.x < 700 + 350) ∧ ¬ (plat.width < 180) := by
  have hv : nearOneDraws.valid := by
    norm_num [Draws.valid, nearOneDraws]
  obtain ⟨hx, hw⟩ := newPlatformDouble_nearOne wideCanvas
    { x := 700, y := floorY wideCanvas - 150, width := 100, height := 20 } rfl
  have hkeep : ¬ roundDouble ((0 : ℚ) + 800) < roundDouble (0 - 200) := by
    have h1 : (0 : ℚ) ≤ roundDouble (0 + 800) := by
      have h := roundDouble_mono (show (0 : ℚ) ≤ 0 + 800 by norm_num)
      rwa [roundDouble_zero] at h
    have h2 : roundDouble (0 - 200) ≤ (0 : ℚ) := by
      have h := roundDouble_mono (show (0 : ℚ) - 200 ≤ 0 by norm_num)
      rwa [roundDouble_zero] at h
    linarith
  refine ⟨hv, rfl, _, _, generatePlatformDouble_cons wideCanvas nearOneDraws
    (initialGame wideCanvas) (groundPlatform wideCanvas)
    [{ x := 400, y := floorY wideCanvas - 100, width := 120, height := 20 },
      { x := 700, y := floorY wideCanvas - 150, width := 100, height := 20 }] rfl, ?_, hx, hw,
    ?_, ?_⟩
  · simp only [groundPlatform, initialGame, if_neg hkeep]
    rfl
  · rw [hx]; norm_num
  · rw [hw]; norm_num

/-! ## C9: platform churn per frame -/

/-- C9: for every state, key table and draws, one call of `update` appends at most one
platform at the tail and evicts at most one at the head, and the length of the platform
sequence changes by at most 1. -/
theorem C9_platform_churn_bounded (canvas : Canvas) (keys : Keys) (r : Draws) (g : Game) :
    ∃ appended evicted : List Platform,
      appended.length ≤ 1 ∧ evicted.length ≤ 1 ∧
      g.platforms ++ appended = evicted ++ (update canvas keys r g).state.platforms ∧
      (update canvas keys r g).state.platforms.length ≤ g.platforms.length + 1 ∧
      g.platforms.length ≤ (update canvas keys r g).state.platforms.length + 1 := by
  cases hg : g.gameOver with
  | true =>
    rw [update_gameOver canvas keys r g hg]
    exact ⟨[], [], by simp, by simp, by simp [Outcome.state], by simp [Outcome.state],
      by simp [Outcome.state]⟩
  | false =>
    cases hp : g.platforms with
    | nil =>
      rw [update_nil_platforms canvas keys r g hp]
      exact ⟨[], [], by simp, by simp, by simp, by simp, by simp⟩
    | cons first rest =>
      rw [update_running_platforms canvas keys r g first rest hg hp]
      split_ifs
      · exact ⟨[newPlatform canvas r ((first :: rest).getLast (List.cons_ne_nil _ _))],
          [first], by simp, by simp, by simp, by simp, by simp⟩
      · exact ⟨[newPlatform canvas r ((first :: rest).getLast (List.cons_ne_nil _ _))],
          [], by simp, by simp, by simp, by simp, by simp⟩
      · exact ⟨[], [], by simp, by simp, by simp, by simp, by simp⟩

/-! ## C10: the platform sequence is never empty -/

/-- `generatePlatform` keeps a non-empty sequence non-empty. -/
theorem generatePlatform_ne_nil (canvas : Canvas) (r : Draws) (g : Game)
    (hne : g.platforms ≠ []) :
    ∃ g1 : Game, generatePlatform canvas r g = .ok g1 ∧ g1.platforms ≠ [] := by
  obtain ⟨first, rest, hp⟩ := List.exists_cons_of_ne_nil hne
  rw [generatePlatform_cons canvas r g first rest hp]
  refine ⟨_, rfl, ?_⟩
  dsimp only
  split_ifs <;> simp

/-- C10: `generatePlatform` applied to a non-empty platform sequence returns with a non-empty
sequence, and in every state reachable from the initial three-platform state by frames, key
events and `restartGame` the platform sequence is non-empty, so that `update` runs to its end
there for every key table and draws. -/
theorem C10_platforms_never_empty (canvas : Canvas) :
    (∀ (r : Draws) (g : Game), g.platforms ≠ [] →
      ∃ g1 : Game, generatePlatform canvas r g = .ok g1 ∧ g1.platforms ≠ []) ∧
    (initialWorld canvas).game.platforms.length = 3 ∧
    (∀ w : World, Reachable canvas w →
      w.game.platforms ≠ [] ∧
      ∀ (keys : Keys) (r : Draws), (update canvas keys r w.game).returned = true) := by
  refine ⟨fun r g hne => generatePlatform_ne_nil canvas r g hne, rfl, fun w hw => ?_⟩
  have hne := reachable_platforms_ne_nil canvas w hw
  refine ⟨hne, fun keys r => ?_⟩
  rw [update_returns canvas keys r w.game hne]
  rfl

/-- C10, witness: the state after the first frame on the 800 by 400 canvas is reachable and
has platforms. -/
theorem C10_platforms_never_empty_witness :
    Reachable wideCanvas secondWorld ∧
    secondWorld.game.platforms ≠ [] ∧
    ∀ (keys : Keys) (r : Draws),
      (update wideCanvas keys r secondWorld.game).returned = true :=
  have hv : halfDraws.valid := by
    norm_num [Draws.valid, halfDraws]
  have hw : Reachable wideCanvas secondWorld :=
    Reachable.tick halfDraws (initialWorld wideCanvas) hv Reachable.init
  ⟨hw, (C10_platforms_never_empty wideCanvas).2.2 secondWorld hw⟩

/-! ## C11: the ground platform -/

/-- A call of `update` entered with `gameOver = false` advances the camera by 2. -/
theorem update_running_cameraX (canvas : Canvas) (keys : Keys) (r : Draws) (g : Game)
    (hg : g.gameOver = false) : (update canvas keys r g).state.cameraX = g.cameraX + 2 := by
  rw [update_running canvas keys r g hg]
  cases hl : g.platforms.getLast? with
  | none => rfl
  | some far =>
    dsimp only
    have hf := (generatePlatform_frame canvas r (simulate canvas keys g)).2.1
    split_ifs
    · cases hgp : generatePlatform canvas r (simulate canvas keys g) with
      | ok g2 =>
        rw [hgp] at hf
        simp only [Outcome.state] at hf ⊢
        simp [hf]
      | typeError g2 =>
        rw [hgp] at hf
        simp only [Outcome.state] at hf ⊢
        simp [hf]
    · simp [Outcome.state]

/-- A checked run agrees with `runFrames` and stays within the running-reachable states. -/
theorem runRunning_sound (canvas : Canvas) (frames : List (Keys × Draws)) :
    ∀ g g1 : Game, runRunning canvas frames g = some g1 →
      g1 = runFrames canvas frames g ∧
      (RunningReachable canvas g → RunningReachable canvas g1) := by
  induction frames with
  | nil =>
    intro g g1 h
    simp only [runRunning, Option.some.injEq] at h
    subst h
    exact ⟨rfl, id⟩
  | cons f fs ih =>
    obtain ⟨keys, r⟩ := f
    intro g g1 h
    simp only [runRunning] at h
    split_ifs at h with hc
    obtain ⟨h1, h2⟩ := ih _ _ h
    exact ⟨h1, fun hr => h2 (RunningReachable.step keys r g hr hc.1 hc.2)⟩

/-- C11 (as amended): in every state reachable from the initial state by running calls of
`update` (any key tables, any draws in `[0, 1)`) in which `cameraX <= 1000`, that is after at
most 500 such calls, the initial ground platform is still the first element of the platform
sequence. -/
theorem C11_ground_persists_early (canvas : Canvas) (g : Game)
    (hr : RunningReachable canvas g) (hc : g.cameraX ≤ 1000) :
    g.platforms.head? = some (groundPlatform canvas) := by
  induction hr with
  | init => rfl
  | step keys r g _ hg _ ih =>
    have hcam := update_running_cameraX canvas keys r g hg
    rw [hcam] at hc
    have ih1 := ih (by linarith)
    obtain ⟨rest, hp⟩ : ∃ rest, g.platforms = groundPlatform canvas :: rest := by
      cases hpl : g.platforms with
      | nil => rw [hpl] at ih1; simp at ih1
      | cons a as =>
        rw [hpl] at ih1
        simp only [List.head?_cons, Option.some.injEq] at ih1
        exact ⟨as, by rw [ih1]⟩
    rw [update_running_platforms canvas keys r g _ rest hg hp]
    have hno : ¬ ((groundPlatform canvas).x + (groundPlatform canvas).width <
        g.cameraX + 2 - 200) := by
      simp only [groundPlatform]
      linarith
    split_ifs <;> rfl

/-- C11, witness of the amended statement: after the first frame the ground is first. -/
theorem C11_ground_persists_early_witness :
    (RunningReachable wideCanvas
        (update wideCanvas noKeys halfDraws (initialGame wideCanvas)).state ∧
      (update wideCanvas noKeys halfDraws (initialGame wideCanvas)).state.cameraX ≤ 1000) ∧
    (update wideCanvas noKeys halfDraws (initialGame wideCanvas)).state.platforms.head? =
      some (groundPlatform wideCanvas) :=
  have hv : halfDraws.valid := by
    norm_num [Draws.valid, halfDraws]
  have hr : RunningReachable wideCanvas
      (update wideCanvas noKeys halfDraws (initialGame wideCanvas)).state :=
    RunningReachable.step noKeys halfDraws _ RunningReachable.init rfl hv
  have hc : (update wideCanvas noKeys halfDraws (initialGame wideCanvas)).state.cameraX
      ≤ 1000 := by
    rw [update_running_cameraX _ _ _ _ rfl]
    norm_num [initialGame]
  ⟨⟨hr, hc⟩, C11_ground_persists_early wideCanvas _ hr hc⟩

/-- The checked run of `survivalScript` goes through: no frame is entered with
`gameOver = true`; at the end the session is still running, the camera is at 1052 and the
first platform is the second of the initial three. -/
theorem survivalScript_run :
    (runRunning wideCanvas survivalScript (initialGame wideCanvas)).map
      (fun g => decide (g.gameOver = false ∧ g.cameraX = 1052 ∧
        g.platforms.head? = some { x := 400, y := 250, width := 120, height := 20 })) =
      some true := by
  decide!

/-- Two stations of the play: after frame 371 the player has landed (`y = 240`, that is feet
at `floorY - 50`, `dy = 0`, grounded, camera at 742); after frame 525 the session is running,
the camera is at 1050 and the ground is still the first platform. -/
theorem survivalScript_stations :
    (runRunning wideCanvas (survivalScript.take 371) (initialGame wideCanvas)).map
      (fun g => decide (g.gameOver = false ∧ g.cameraX = 742 ∧ g.player.y = 240 ∧
        g.player.dy = 0 ∧ g.player.jumping = false)) = some true ∧
    (runRunning wideCanvas (survivalScript.take 525) (initialGame wideCanvas)).map
      (fun g => decide (g.gameOver = false ∧ g.cameraX = 1050 ∧ g.player.y = 240 ∧
        g.platforms.head? = some { x := 0, y := 350, width := 800, height := 50 })) =
      some true := by
  decide!

/-- C11, counterexample: on the 800 by 400 canvas the player stands on the ground for 339
frames, jumps in frame 340, lands in frame 371 on the first generated platform (`x = 850`,
`y = floorY - 50`, 170 wide) and walks on along the generated platforms, which overlap.  In
frame 526 the camera reaches 1052, a platform is generated and the ground, whose right edge
800 is less than `1052 - 200`, is shifted out: the state is reached by running calls of
`update` only, and its first platform is `{x: 400, y: floorY - 100, width: 120, height: 20}`. -/
theorem C11_counterexample :
    RunningReachable wideCanvas survivorGame ∧
    survivorGame.gameOver = false ∧
    survivorGame.platforms.head? = some { x := 400, y := 250, width := 120, height := 20 } ∧
    survivorGame.platforms.head? ≠ some (groundPlatform wideCanvas) := by
  have hrun := survivalScript_run
  cases hres : runRunning wideCanvas survivalScript (initialGame wideCanvas) with
  | none =>
    rw [hres] at hrun
    simp at hrun
  | some g1 =>
    rw [hres] at hrun
    simp only [Option.map_some', Option.some.injEq, decide_eq_true_eq] at hrun
    obtain ⟨h1, h2⟩ := runRunning_sound wideCanvas survivalScript _ _ hres
    have hg : survivorGame = g1 := h1.symm
    rw [hg]
    refine ⟨h2 RunningReachable.init, hrun.1, hrun.2.2, ?_⟩
    rw [hrun.2.2]
    simp [groundPlatform]

/-! ## C12: the platform sequence stays ascending -/

/-- In an ascending sequence no platform lies to the right of the last one. -/
theorem ascending_le_getLast (l : List Platform) (hne : l ≠ []) (hs : Ascending l) :
    ∀ a ∈ l, a.x ≤ (l.getLast hne).x := by
  intro a ha
  have hsplit := List.dropLast_append_getLast hne
  unfold Ascending at hs
  rw [← hsplit, List.pairwise_append] at hs
  rw [← hsplit, List.mem_append] at ha
  rcases ha with ha | ha
  · exact le_of_lt (hs.2.2 a ha _ (List.mem_singleton_self _))
  · rw [List.mem_singleton] at ha
    rw [ha]

/-- Appending a platform that lies to the right of the last one keeps the sequence
ascending. -/
theorem ascending_append (l : List Platform) (hne : l ≠ []) (hs : Ascending l)
    (plat : Platform) (hx : (l.getLast hne).x < plat.x) : Ascending (l ++ [plat]) := by
  unfold Ascending
  rw [List.pairwise_append]
  refine ⟨hs, List.pairwise_singleton _ _, ?_⟩
  intro a ha b hb
  rw [List.mem_singleton] at hb
  rw [hb]
  exact lt_of_le_of_lt (ascending_le_getLast l hne hs a ha) hx

/-- C12: the initial sequence (`x = 0, 400, 700`) is strictly ascending in x, and for every
state whose platform sequence is strictly ascending in x, every key table and all draws in
`[0, 1)`, the sequence after `update` is strictly ascending in x again. -/
theorem C12_platforms_stay_ascending (canvas : Canvas) :
    ((initialGame canvas).platforms.map (fun plat => plat.x) = [0, 400, 700] ∧
      Ascending (initialGame canvas).platforms) ∧
    ∀ (keys : Keys) (r : Draws) (g : Game), r.valid → Ascending g.platforms →
      Ascending (update canvas keys r g).state.platforms := by
  refine ⟨⟨rfl, ?_⟩, ?_⟩
  · norm_num [Ascending, initialGame]
  · intro keys r g hr hs
    cases hg : g.gameOver with
    | true =>
      rw [update_gameOver canvas keys r g hg]
      exact hs
    | false =>
      cases hp : g.platforms with
      | nil =>
        rw [update_nil_platforms canvas keys r g hp]
        exact List.Pairwise.nil
      | cons first rest =>
        rw [update_running_platforms canvas keys r g first rest hg hp]
        rw [hp] at hs
        have hnew : ((first :: rest).getLast (List.cons_ne_nil _ _)).x <
            (newPlatform canvas r ((first :: rest).getLast (List.cons_ne_nil _ _))).x := by
          have h1 := hr.1.1
          simp only [newPlatform]
          linarith
        have happ := ascending_append (first :: rest) (List.cons_ne_nil _ _) hs _ hnew
        split_ifs
        · rw [List.cons_append] at happ
          exact (List.pairwise_cons.1 happ).2
        · exact happ
        · exact hs

/-- C12, witness: the first frame from the start state, with all three draws `1/2`. -/
theorem C12_platforms_stay_ascending_witness :
    (halfDraws.valid ∧ Ascending (initialGame wideCanvas).platforms) ∧
    Ascending (update wideCanvas noKeys halfDraws (initialGame wideCanvas)).state.platforms :=
  have hv : halfDraws.valid := by
    norm_num [Draws.valid, halfDraws]
  have hs : Ascending (initialGame wideCanvas).platforms :=
    (C12_platforms_stay_ascending wideCanvas).1.2
  ⟨⟨hv, hs⟩, (C12_platforms_stay_ascending wideCanvas).2 noKeys halfDraws _ hv hs⟩

/-! ## C13: horizontal intent -/

/-- Collision resolution writes neither `dx` nor `facingRight`. -/
theorem platformCollision_dx_facing (wx : ℚ) (p : Player) (l : List Platform) :
    (platformCollision wx p l).1.dx = p.dx ∧
    (platformCollision wx p l).1.facingRight = p.facingRight ∧
    (platformCollision wx p l).1.x = p.x := by
  induction l with
  | nil => exact ⟨rfl, rfl, rfl⟩
  | cons plat rest ih =>
    simp only [platformCollision]
    split_ifs
    · exact ⟨rfl, rfl, rfl⟩
    · exact ih

/-- After a running call of `update` the player's `dx` and `facingRight` are those the
movement step wrote. -/
theorem update_running_dx_facing (canvas : Canvas) (keys : Keys) (r : Draws) (g : Game)
    (hg : g.gameOver = false) :
    (update canvas keys r g).state.player.dx = (movement keys g.player).dx ∧
    (update canvas keys r g).state.player.facingRight =
      (movement keys g.player).facingRight := by
  rw [update_running_player canvas keys r g hg]
  have hmove : ∀ p : Player, (movePlayer canvas p).dx = p.dx ∧
      (movePlayer canvas p).facingRight = p.facingRight := by
    intro p
    unfold movePlayer
    dsimp only
    split_ifs <;> exact ⟨rfl, rfl⟩
  have hjump : ∀ p : Player, (jump keys p).dx = p.dx ∧
      (jump keys p).facingRight = p.facingRight := by
    intro p
    unfold jump
    split_ifs <;> exact ⟨rfl, rfl⟩
  have hc := platformCollision_dx_facing (g.cameraX + (beforeCollision keys g.player).x)
    (beforeCollision keys g.player) g.platforms
  rw [(hmove _).1, (hmove _).2]
  simp only [resolve, hc.1, hc.2.1]
  simp only [beforeCollision, applyGravity, (hjump _).1, (hjump _).2]
  exact ⟨trivial, trivial⟩

/-- C13: after a running call of `update`, `player.dx = 8` and `facingRight = true` if `KeyD`
is held, also when `KeyA` is held too; `player.dx = -8` and `facingRight = false` if `KeyA` is
held and `KeyD` is not; `player.dx = 0` and `facingRight` is unchanged if neither is held. -/
theorem C13_horizontal_intent (canvas : Canvas) (keys : Keys) (r : Draws) (g : Game)
    (hg : g.gameOver = false) :
    (keys "KeyD" = true →
      (update canvas keys r g).state.player.dx = 8 ∧
      (update canvas keys r g).state.player.facingRight = true) ∧
    (keys "KeyD" = false → keys "KeyA" = true →
      (update canvas keys r g).state.player.dx = -8 ∧
      (update canvas keys r g).state.player.facingRight = false) ∧
    (keys "KeyD" = false → keys "KeyA" = false →
      (update canvas keys r g).state.player.dx = 0 ∧
      (update canvas keys r g).state.player.facingRight = g.player.facingRight) := by
  obtain ⟨hdx, hf⟩ := update_running_dx_facing canvas keys r g hg
  rw [hdx, hf]
  refine ⟨fun hd => ?_, fun hd ha => ?_, fun hd ha => ?_⟩
  · simp [movement, hd, Player.speed]
  · simp [movement, hd, ha, Player.speed]
  · simp [movement, hd, ha]

/-- C13, witness: with `KeyD` and `KeyA` both held on the first frame the player heads
right. -/
theorem C13_horizontal_intent_witness :
    ((initialGame wideCanvas).gameOver = false ∧ bothKeys "KeyD" = true ∧
      bothKeys "KeyA" = true) ∧
    (update wideCanvas bothKeys zeroDraws (initialGame wideCanvas)).state.player.dx = 8 ∧
    (update wideCanvas bothKeys zeroDraws (initialGame wideCanvas)).state.player.facingRight =
      true :=
  ⟨⟨rfl, by decide, by decide⟩,
    (C13_horizontal_intent wideCanvas bothKeys zeroDraws (initialGame wideCanvas) rfl).1
      (by decide)⟩

/-! ## C14: the generation trigger -/

/-- C14: in a running session with a non-empty platform sequence whose last platform is `L`,
`update` returns; with `cameraX` the camera offset as advanced in that tick (the old offset
plus 2, the value line 129 reads), it appends exactly one new platform at the end of the
sequence (after which the first platform may be shifted out) if `L.x < cameraX + 1000`, and
leaves the sequence as it was otherwise. -/
theorem C14_generation_trigger (canvas : Canvas) (keys : Keys) (r : Draws) (g : Game)
    (L : Platform) (hg : g.gameOver = false) (hL : g.platforms.getLast? = some L) :
    ∃ g1 : Game, update canvas keys r g = .ok g1 ∧ g1.cameraX = g.cameraX + 2 ∧
      (L.x < g1.cameraX + 1000 →
        (g1.platforms = g.platforms ++ [newPlatform canvas r L] ∨
          g1.platforms = (g.platforms ++ [newPlatform canvas r L]).tail) ∧
        g1.platforms.getLast? = some (newPlatform canvas r L)) ∧
      (¬ L.x < g1.cameraX + 1000 → g1.platforms = g.platforms) := by
  have hne : g.platforms ≠ [] := by
    intro h
    rw [h] at hL
    simp at hL
  obtain ⟨first, rest, hp⟩ := List.exists_cons_of_ne_nil hne
  have hlast : (first :: rest).getLast (List.cons_ne_nil _ _) = L := by
    rw [hp, List.getLast?_eq_getLast _ (List.cons_ne_nil _ _)] at hL
    exact Option.some.inj hL
  have hcam := update_running_cameraX canvas keys r g hg
  have hpl := update_running_platforms canvas keys r g first rest hg hp
  rw [hlast] at hpl
  refine ⟨(update canvas keys r g).state, update_returns canvas keys r g hne, hcam, ?_, ?_⟩
  · intro hlt
    rw [hcam] at hlt
    rw [hpl, if_pos hlt, hp]
    split_ifs
    · refine ⟨Or.inr (by simp), ?_⟩
      simp [List.getLast?_append]
    · refine ⟨Or.inl (by simp), ?_⟩
      rw [← List.cons_append, List.getLast?_append]
      simp
  · intro hge
    rw [hcam] at hge
    rw [hpl, if_neg hge, hp]

/-- C14, witness: on the first frame the last platform (`x = 700`) is within 1000 of the
camera and one platform is appended. -/
theorem C14_generation_trigger_witness :
    ((initialGame wideCanvas).gameOver = false ∧
      (initialGame wideCanvas).platforms.getLast? =
        some { x := 700, y := floorY wideCanvas - 150, width := 100, height := 20 }) ∧
    ∃ g1 : Game, update wideCanvas noKeys zeroDraws (initialGame wideCanvas) = .ok g1 ∧
      g1.cameraX = (initialGame wideCanvas).cameraX + 2 ∧
      ((700 : ℚ) < g1.cameraX + 1000 →
        (g1.platforms = (initialGame wideCanvas).platforms ++
            [newPlatform wideCanvas zeroDraws
              { x := 700, y := floorY wideCanvas - 150, width := 100, height := 20 }] ∨
          g1.platforms = ((initialGame wideCanvas).platforms ++
            [newPlatform wideCanvas zeroDraws
              { x := 700, y := floorY wideCanvas - 150, width := 100, height := 20 }]).tail) ∧
        g1.platforms.getLast? = some (newPlatform wideCanvas zeroDraws
          { x := 700, y := floorY wideCanvas - 150, width := 100, height := 20 })) ∧
      (¬ (700 : ℚ) < g1.cameraX + 1000 → g1.platforms = (initialGame wideCanvas).platforms) :=
  ⟨⟨rfl, rfl⟩, C14_generation_trigger wideCanvas noKeys zeroDraws (initialGame wideCanvas)
    { x := 700, y := floorY wideCanvas - 150, width := 100, height := 20 } rfl rfl⟩

/-! ## C15: eviction and the other platforms -/

/-- C15: on a running tick with platform sequence `first :: rest`, last platform `L` and
`cameraX` the camera offset as advanced in that tick (the old offset plus 2, the value lines
129 and 65 read), the sequence afterwards is `rest` or `first :: rest`, followed by what was
appended; `first` is left out exactly when a platform was appended and
`first.x + first.width < cameraX - 200`.  All other platforms stay, in order and unchanged.
On an empty sequence nothing is appended or removed. -/
theorem C15_eviction_rule (canvas : Canvas) (keys : Keys) (r : Draws) (g : Game)
    (hg : g.gameOver = false) :
    (g.platforms = [] → (update canvas keys r g).state.platforms = []) ∧
    ∀ (first : Platform) (rest : List Platform), g.platforms = first :: rest →
      ∃ appended : List Platform,
        appended = (if ((first :: rest).getLast (List.cons_ne_nil _ _)).x <
            (update canvas keys r g).state.cameraX + 1000
          then [newPlatform canvas r ((first :: rest).getLast (List.cons_ne_nil _ _))]
          else []) ∧
        ((appended ≠ [] ∧
            first.x + first.width < (update canvas keys r g).state.cameraX - 200) →
          (update canvas keys r g).state.platforms = rest ++ appended) ∧
        (¬ (appended ≠ [] ∧
            first.x + first.width < (update canvas keys r g).state.cameraX - 200) →
          (update canvas keys r g).state.platforms = first :: rest ++ appended) := by
  refine ⟨fun hp => update_nil_platforms canvas keys r g hp, fun first rest hp => ?_⟩
  rw [update_running_cameraX canvas keys r g hg,
    update_running_platforms canvas keys r g first rest hg hp]
  refine ⟨_, rfl, ?_, ?_⟩
  · rintro ⟨happ, hev⟩
    split_ifs at happ with hgen
    · rw [if_pos hgen, if_pos hev, if_pos hgen]
    · exact absurd rfl happ
  · intro hno
    by_cases hgen : ((first :: rest).getLast (List.cons_ne_nil _ _)).x < g.cameraX + 2 + 1000
    · rw [if_pos hgen, if_pos hgen]
      have hev : ¬ first.x + first.width < g.cameraX + 2 - 200 := by
        intro hev
        apply hno
        rw [if_pos hgen]
        exact ⟨by simp, hev⟩
      rw [if_neg hev]
      rfl
    · rw [if_neg hgen, if_neg hgen]
      simp

/-- C15, witness: on the first frame a platform is appended and the ground, which is not
behind the camera, stays first. -/
theorem C15_eviction_rule_witness :
    (initialGame wideCanvas).gameOver = false ∧
    (update wideCanvas noKeys zeroDraws (initialGame wideCanvas)).state.platforms =
      (initialGame wideCanvas).platforms ++
        [{ x := 850, y := 300, width := 80, height := 20 }] := by
  refine ⟨rfl, ?_⟩
  obtain ⟨appended, happ, -, hkeep⟩ :=
    (C15_eviction_rule wideCanvas noKeys zeroDraws (initialGame wideCanvas) rfl).2
      (groundPlatform wideCanvas)
      [{ x := 400, y := floorY wideCanvas - 100, width := 120, height := 20 },
        { x := 700, y := floorY wideCanvas - 150, width := 100, height := 20 }] rfl
  have hcam := update_running_cameraX wideCanvas noKeys zeroDraws (initialGame wideCanvas) rfl
  rw [hcam] at happ hkeep
  have happ2 : appended = [{ x := 850, y := 300, width := 80, height := 20 }] := by
    rw [happ]
    norm_num [initialGame, newPlatform, zeroDraws, floorY, wideCanvas, groundHeight]
  rw [hkeep (by
    rintro ⟨-, hev⟩
    norm_num [groundPlatform, initialGame] at hev), happ2]
  rfl

/-! ## C16: the jump from the ground -/

/-- A player that moves upwards passes the test of line 106 for no platform. -/
theorem platformCollision_rising (wx : ℚ) (p : Player) (hdy : p.dy < 0)
    (l : List Platform) :
    (∀ plat ∈ l, qualifies wx p plat = false) ∧ platformCollision wx p l = (p, false) := by
  have hq : ∀ plat : Platform, qualifies wx p plat = false := by
    intro plat
    unfold qualifies
    simp [not_le.2 hdy]
  refine ⟨fun plat _ => hq plat, ?_⟩
  induction l with
  | nil => rfl
  | cons plat rest ih => simp [platformCollision, hq plat, ih]

/-- C16: in a running session with `player.jumping = false` and `KeyW` held, after one call of
`update` `player.dy = -17`, `player.y` is the old `y` minus 17 and `player.jumping = true`;
no platform of the sequence, whatever it holds, passes the collision test in that tick, so the
loop ends with `onGround = false`. -/
theorem C16_jump_from_ground (canvas : Canvas) (keys : Keys) (r : Draws) (g : Game)
    (hg : g.gameOver = false) (hj : g.player.jumping = false) (hw : keys "KeyW" = true) :
    (update canvas keys r g).state.player.dy = -17 ∧
    (update canvas keys r g).state.player.y = g.player.y - 17 ∧
    (update canvas keys r g).state.player.jumping = true ∧
    (∀ plat ∈ g.platforms,
      qualifies (g.cameraX + (beforeCollision keys g.player).x)
        (beforeCollision keys g.player) plat = false) ∧
    (platformCollision (g.cameraX + (beforeCollision keys g.player).x)
      (beforeCollision keys g.player) g.platforms).2 = false := by
  have hmj : (movement keys g.player).jumping = false := by
    rw [movement_jumping, hj]
  have hdy : (beforeCollision keys g.player).dy = -17 := by
    simp only [beforeCollision, applyGravity, jump, hw, hmj, gravity]
    norm_num
  have hy : (beforeCollision keys g.player).y = g.player.y - 17 := by
    simp only [beforeCollision, applyGravity, jump, hw, hmj, gravity]
    norm_num [(movement_dy_y keys g.player).2]
    ring
  obtain ⟨hnone, hc⟩ := platformCollision_rising
    (g.cameraX + (beforeCollision keys g.player).x) (beforeCollision keys g.player)
    (by rw [hdy]; norm_num) g.platforms
  rw [update_running_player canvas keys r g hg]
  simp only [movePlayer_y, movePlayer_dy, movePlayer_jumping, resolve, hc]
  exact ⟨hdy, hy, rfl, hnone, trivial⟩

/-- C16, witness: the jump from the ground on the first frame. -/
theorem C16_jump_from_ground_witness :
    ((initialGame wideCanvas).gameOver = false ∧
      (initialGame wideCanvas).player.jumping = false ∧ jumpKeys "KeyW" = true) ∧
    (update wideCanvas jumpKeys zeroDraws (initialGame wideCanvas)).state.player.dy = -17 ∧
    (update wideCanvas jumpKeys zeroDraws (initialGame wideCanvas)).state.player.y =
      (initialGame wideCanvas).player.y - 17 ∧
    (update wideCanvas jumpKeys zeroDraws (initialGame wideCanvas)).state.player.jumping =
      true :=
  have h := C16_jump_from_ground wideCanvas jumpKeys zeroDraws (initialGame wideCanvas) rfl rfl
    (by decide)
  ⟨⟨rfl, rfl, by decide⟩, h.1, h.2.1, h.2.2.1⟩

/-! ## C17: resting on a platform -/

/-- The movement step does not write `x`. -/
theorem movement_x (keys : Keys) (p : Player) : (movement keys p).x = p.x := by
  unfold movement
  split_ifs <;> rfl

/-- Without `KeyW` the player enters collision resolution with `x` unchanged, `dy` one more
and `y` advanced by the new `dy`. -/
theorem beforeCollision_no_jump (keys : Keys) (p : Player) (hw : keys "KeyW" = false) :
    (beforeCollision keys p).x = p.x ∧ (beforeCollision keys p).dy = p.dy + 1 ∧
    (beforeCollision keys p).y = p.y + (p.dy + 1) := by
  simp only [beforeCollision, applyGravity, jump, hw, gravity, Bool.false_and,
    Bool.false_eq_true, if_false, movement_x, (movement_dy_y keys p).1,
    (movement_dy_y keys p).2]
  exact ⟨trivial, trivial, trivial⟩

/-- C17: in a running session in which the player rests on a platform `P` of the sequence
(`player.dy = 0`, `player.y + 60 = P.y`, the world extent at the current `cameraX` and `x`
strictly overlaps `P`, `P.height >= 1`), `KeyW` is not held and no platform before `P`
qualifies for collision, gravity makes `dy = 1` before collision resolution, and after one
call of `update` `player.y` is unchanged, `player.dy = 0` and `player.jumping = false`. -/
theorem C17_resting_fixed_point (canvas : Canvas) (keys : Keys) (r : Draws) (g : Game)
    (pre post : List Platform) (P : Platform)
    (hg : g.gameOver = false)
    (hsplit : g.platforms = pre ++ P :: post)
    (hdy : g.player.dy = 0)
    (hy : g.player.y + 60 = P.y)
    (hov : g.cameraX + g.player.x < P.x + P.width ∧ P.x < g.cameraX + g.player.x + 50)
    (hh : 1 ≤ P.height)
    (hw : keys "KeyW" = false)
    (hpre : ∀ q ∈ pre, ¬ Snaps g.cameraX (beforeCollision keys g.player) q) :
    (beforeCollision keys g.player).dy = 1 ∧
    (update canvas keys r g).state.player.y = g.player.y ∧
    (update canvas keys r g).state.player.dy = 0 ∧
    (update canvas keys r g).state.player.jumping = false := by
  obtain ⟨hbx, hbdy, hby⟩ := beforeCollision_no_jump keys g.player hw
  rw [hdy] at hbdy hby
  have hsnap : Snaps g.cameraX (beforeCollision keys g.player) P := by
    unfold Snaps
    rw [hbx, hbdy, hby]
    refine ⟨hov, ⟨?_, ?_⟩, ?_⟩ <;> linarith
  have hc := platformCollision_first (g.cameraX + (beforeCollision keys g.player).x)
    (beforeCollision keys g.player) pre post P
    (fun q hqm => by
      have := hpre q hqm
      rw [← qualifies_iff_snaps] at this
      simpa using this)
    ((qualifies_iff_snaps _ _ _).2 hsnap)
  rw [update_running_player canvas keys r g hg]
  simp only [movePlayer_y, movePlayer_dy, movePlayer_jumping, resolve, ← hsplit] at hc ⊢
  rw [hc]
  refine ⟨by rw [hbdy]; norm_num, ?_, rfl, rfl⟩
  simp only [Player.height]
  linarith

/-- C17, witness: at the start the player rests on the ground platform, which is first in the
sequence. -/
theorem C17_resting_fixed_point_witness :
    (update wideCanvas noKeys zeroDraws (initialGame wideCanvas)).state.player.y =
      (initialGame wideCanvas).player.y ∧
    (update wideCanvas noKeys zeroDraws (initialGame wideCanvas)).state.player.dy = 0 ∧
    (update wideCanvas noKeys zeroDraws (initialGame wideCanvas)).state.player.jumping =
      false :=
  (C17_resting_fixed_point wideCanvas noKeys zeroDraws (initialGame wideCanvas) []
    [{ x := 400, y := floorY wideCanvas - 100, width := 120, height := 20 },
      { x := 700, y := floorY wideCanvas - 150, width := 100, height := 20 }]
    (groundPlatform wideCanvas) rfl rfl rfl
    (by norm_num [initialGame, groundPlatform])
    (by norm_num [initialGame, groundPlatform])
    (by norm_num [groundPlatform, groundHeight])
    rfl (by simp)).2

/-! ## C18: the key listeners -/

/-- C18: a key-down for `code` sets `keys[code] = true` and a key-up sets it to `false`, other
entries being left alone; the key-down listener calls `restartGame` exactly when `gameOver` is
true and `code` is `Space`, so that a key-down while running, a key-down of another key while
the session is over, and every key-up leave player, platforms, `cameraX`, `score` and
`gameOver` (all of `Game`) unchanged. -/
theorem C18_key_events (canvas : Canvas) (code : String) (w : World) :
    ((keydown canvas code w).keys code = true ∧
      ∀ c : String, c ≠ code → (keydown canvas code w).keys c = w.keys c) ∧
    ((keyup code w).keys code = false ∧
      ∀ c : String, c ≠ code → (keyup code w).keys c = w.keys c) ∧
    (keydown canvas code w).game =
      (if w.game.gameOver = true ∧ code = "Space" then restartGame canvas w.game
        else w.game) ∧
    (w.game.gameOver = false → (keydown canvas code w).game = w.game) ∧
    (w.game.gameOver = true → code ≠ "Space" → (keydown canvas code w).game = w.game) ∧
    (keyup code w).game = w.game := by
  have hkeys : (keydown canvas code w).keys = setKey w.keys code true := by
    unfold keydown
    dsimp only
    split_ifs <;> rfl
  have hgame : (keydown canvas code w).game =
      (if w.game.gameOver = true ∧ code = "Space" then restartGame canvas w.game
        else w.game) := by
    unfold keydown
    dsimp only
    by_cases h : w.game.gameOver = true ∧ code = "Space"
    · rw [if_pos h, if_pos (by simp [h.1, h.2])]
    · rw [if_neg h, if_neg (by simpa using h)]
  refine ⟨⟨?_, ?_⟩, ⟨?_, ?_⟩, hgame, ?_, ?_, rfl⟩
  · rw [hkeys]
    simp [setKey]
  · intro c hc
    rw [hkeys]
    simp [setKey, hc]
  · simp [keyup, setKey]
  · intro c hc
    simp [keyup, setKey, hc]
  · intro hrun
    rw [hgame, if_neg (by simp [hrun])]
  · intro _ hcode
    rw [hgame, if_neg (by simp [hcode])]

/-- C18, witness: with the session over, a key-down of `KeyD` leaves the globals alone, and a
key-down of `Space` restarts. -/
theorem C18_key_events_witness :
    (overWorld.game.gameOver = true ∧ "KeyD" ≠ "Space") ∧
    (keydown wideCanvas "KeyD" overWorld).game = overWorld.game ∧
    (keydown wideCanvas "Space" overWorld).game = restartGame wideCanvas overWorld.game :=
  ⟨⟨rfl, by decide⟩,
    (C18_key_events wideCanvas "KeyD" overWorld).2.2.2.2.1 rfl (by decide),
    by
      rw [(C18_key_events wideCanvas "Space" overWorld).2.2.1]
      exact if_pos ⟨rfl, rfl⟩⟩

/-! ## C19: what `restartGame` leaves alone -/

/-- C19: for every state, `restartGame` leaves the platform sequence, `player.jumping`,
`player.dx` and `player.facingRight` as they were, and a restart leaves the key table as it
was; it does not put back the initial three platforms: from `fallenGame`, whose sequence is
not the initial one, the sequence after the restart is still that of `fallenGame` while
`cameraX` is back at 0. -/
theorem C19_restart_frame (canvas : Canvas) :
    (∀ g : Game,
      (restartGame canvas g).platforms = g.platforms ∧
      (restartGame canvas g).player.jumping = g.player.jumping ∧
      (restartGame canvas g).player.dx = g.player.dx ∧
      (restartGame canvas g).player.facingRight = g.player.facingRight) ∧
    (∀ w : World, ({ w with game := restartGame canvas w.game } : World).keys = w.keys) ∧
    ((restartGame wideCanvas fallenGame).platforms = fallenGame.platforms ∧
      (restartGame wideCanvas fallenGame).platforms ≠ (initialGame wideCanvas).platforms ∧
      (restartGame wideCanvas fallenGame).cameraX = 0) := by
  refine ⟨fun g => ⟨rfl, rfl, rfl, rfl⟩, fun w => rfl, rfl, ?_, rfl⟩
  simp [restartGame, fallenGame, fallingGame, initialGame]

/-! ## C20: the platform count never decreases -/

/-- One call of `update` leaves the number of platforms as it is or adds one. -/
theorem update_length (canvas : Canvas) (keys : Keys) (r : Draws) (g : Game) :
    (update canvas keys r g).state.platforms.length = g.platforms.length ∨
    (update canvas keys r g).state.platforms.length = g.platforms.length + 1 := by
  cases hg : g.gameOver with
  | true =>
    rw [update_gameOver canvas keys r g hg]
    exact Or.inl rfl
  | false =>
    cases hp : g.platforms with
    | nil =>
      rw [update_nil_platforms canvas keys r g hp]
      exact Or.inl rfl
    | cons first rest =>
      rw [update_running_platforms canvas keys r g first rest hg hp]
      split_ifs
      · left; simp
      · right; simp
      · left; rfl

/-- Every reachable state has at least three platforms. -/
theorem reachable_three_platforms (canvas : Canvas) (w : World) (hw : Reachable canvas w) :
    3 ≤ w.game.platforms.length := by
  induction hw with
  | init => simp [initialWorld, initialGame]
  | tick r w _ _ ih =>
    have h := update_length canvas w.keys r w.game
    simp only [tick]
    omega
  | keydown code w _ ih =>
    unfold keydown
    dsimp only
    split_ifs
    · exact ih
    · exact ih
  | keyup code w _ ih => exact ih
  | restart w _ ih => exact ih

/-- C20: for every state, key table and draws, the length of the platform sequence after
`update` is the length before or exactly one more, and every state reachable from the initial
state (by frames, key events and restarts) has at least 3 platforms. -/
theorem C20_platform_count_never_decreases (canvas : Canvas) :
    (∀ (keys : Keys) (r : Draws) (g : Game),
      (update canvas keys r g).state.platforms.length = g.platforms.length ∨
      (update canvas keys r g).state.platforms.length = g.platforms.length + 1) ∧
    (∀ w : World, Reachable canvas w → 3 ≤ w.game.platforms.length) :=
  ⟨fun keys r g => update_length canvas keys r g,
    fun w hw => reachable_three_platforms canvas w hw⟩

/-- C20, witness: the state after the first frame on the 800 by 400 canvas is reachable and
has at least three platforms. -/
theorem C20_platform_count_never_decreases_witness :
    Reachable wideCanvas secondWorld ∧ 3 ≤ secondWorld.game.platforms.length :=
  have hv : halfDraws.valid := by
    norm_num [Draws.valid, halfDraws]
  have hw : Reachable wideCanvas secondWorld :=
    Reachable.tick halfDraws (initialWorld wideCanvas) hv Reachable.init
  ⟨hw, (C20_platform_count_never_decreases wideCanvas).2 secondWorld hw⟩

end Pisket
